import Mathlib

/-!
# BitPaper: formal verification of the encode/decode pipeline

Shallow embedding of the BitPaper repository (`src/bitpaper/*.py`) in Lean 4,
with theorems settling the specification claims about the interleaver, FEC
stage, payload codec, cipher stage, signature stage, grid mapper, compression
selector, capacity check and memory manager.

Conventions:
* Python byte strings are `List Nat` (each element a byte value).
* Bit strings (`'0'`/`'1'` characters in Python) are `List Bool` (`true` = `'1'`).
* Python exceptions are modelled with `Except PyError`.
* External C libraries (zlib, lzma, bz2, reedsolo, cryptography's RSA) are
  black boxes, passed in as function parameters or modelled symbolically.
-/

set_option linter.unusedVariables false

namespace BitPaper

/-- Python exceptions raised (or documented) by the embedded code. -/
inductive PyError where
  | attributeError : PyError
  | valueError : String → PyError
  | overflowError : PyError
deriving DecidableEq, Repr

/-! ## Config (src/bitpaper/utils.py) -/

namespace Config

def cell_size : Nat := 6

def bits_per_row : Nat := 413

def max_rows : Nat := 584

def border_width : Nat := 3

/-- Embeds `error_correction_level = 0.1`; as a Reed-Solomon symbol count this is
`max(1, int(255 * 0.1)) = 25` (the float product `255 * 0.1` is `25.5`, which
`int` truncates to 25). -/
def error_correction_level_symbols : Nat := 25

end Config

/-! ## Interleaver (src/bitpaper/simple_interleaved_core.py, lines 309-358;
the decoder's `_simple_deinterleave` at lines 603-633 is an identical copy) -/

/-- One stride group of `_simple_interleave`: the Python loop
`for i in range(k, len(bitstream), 3): interleaved.append(bitstream[i])`
collects the elements whose index is congruent to `k` modulo 3, in order
(the inner `if i < len(bitstream)` guard is always true inside the range). -/
def strideGroup (bitstream : List Bool) (k : Nat) : List Bool :=
  ((List.range bitstream.length).filter (fun i => decide (i % 3 = k))).filterMap
    (fun i => bitstream[i]?)

/-- Embeds `SimpleInterleavedBitPaperEncoder._simple_interleave` (lines 309-326):
identity for length <= 1, otherwise the three stride groups (indices
0,3,6,..., then 1,4,7,..., then 2,5,8,...) concatenated. -/
def _simple_interleave (bitstream : List Bool) : List Bool :=
  if bitstream.length ≤ 1 then bitstream
  else
    strideGroup bitstream 0 ++ strideGroup bitstream 1 ++ strideGroup bitstream 2

/-- Embeds `_simple_deinterleave` (lines 328-358 / 603-633).  The Python code builds a
list `original = [''] * n` and assigns one-character strings into it in three
write phases; we model the slots as `Option Bool` (`none` = the initial `''`)
and the final `''.join(original)` as `filterMap id` (unassigned empty strings
contribute nothing to the join).  Python list assignment `original[p] = c` is
`List.set p c`. -/
def _simple_deinterleave (bitstream : List Bool) : List Bool :=
  if bitstream.length ≤ 1 then bitstream
  else
    let total_bits := bitstream.length
    let group_size := total_bits / 3
    let remainder := total_bits % 3
    let original : List (Option Bool) := List.replicate bitstream.length none
    let original := (List.range (group_size + (if remainder > 0 then 1 else 0))).foldl
      (fun a i => if i < bitstream.length then a.set (i * 3) bitstream[i]? else a)
      original
    let start_idx := group_size + (if remainder > 0 then 1 else 0)
    let original := (List.range (group_size + (if remainder > 1 then 1 else 0))).foldl
      (fun a i =>
        if start_idx + i < bitstream.length && i * 3 + 1 < bitstream.length then
          a.set (i * 3 + 1) bitstream[start_idx + i]?
        else a)
      original
    let start_idx := start_idx + group_size + (if remainder > 1 then 1 else 0)
    let original := (List.range group_size).foldl
      (fun a i =>
        if start_idx + i < bitstream.length && i * 3 + 2 < bitstream.length then
          a.set (i * 3 + 2) bitstream[start_idx + i]?
        else a)
      original
    original.filterMap id

/-- Reassemble three stride groups: `merge3 a b c = a₀ b₀ c₀ a₁ b₁ c₁ …`
(specification-side description of the inverse stride permutation). -/
def merge3 : List Bool → List Bool → List Bool → List Bool
  | [], _, _ => []
  | x :: a, b, c => x :: merge3 b c a
termination_by a b c => a.length + b.length + c.length
decreasing_by simp; omega

/-! ### Stride group lemmas -/

theorem strideGroup_nil (k : Nat) : strideGroup [] k = [] := rfl

theorem strideGroup_cons0 (a : Bool) (t : List Bool) :
    strideGroup (a :: t) 0 = a :: strideGroup t 2 := by
  unfold strideGroup
  rw [List.length_cons, List.range_succ_eq_map, List.filter_cons]
  simp only [decide_eq_true_eq, Nat.zero_mod, if_true, eq_self_iff_true]
  rw [List.filter_map, List.filterMap_cons]
  simp only [List.getElem?_cons_zero]
  rw [List.filterMap_map]
  simp only [Function.comp_def]
  have hf : ∀ x ∈ List.range t.length,
      (decide ((Nat.succ x) % 3 = 0)) = (decide (x % 3 = 2)) := by
    intro x _
    apply decide_eq_decide.mpr
    omega
  rw [List.filter_congr hf]
  simp only [List.getElem?_cons_succ]

theorem strideGroup_cons1 (a : Bool) (t : List Bool) :
    strideGroup (a :: t) 1 = strideGroup t 0 := by
  unfold strideGroup
  rw [List.length_cons, List.range_succ_eq_map, List.filter_cons]
  simp only [decide_eq_true_eq, Nat.zero_mod]
  rw [if_neg (by omega)]
  rw [List.filter_map, List.filterMap_map]
  simp only [Function.comp_def]
  have hf : ∀ x ∈ List.range t.length,
      (decide ((Nat.succ x) % 3 = 1)) = (decide (x % 3 = 0)) := by
    intro x _
    apply decide_eq_decide.mpr
    omega
  rw [List.filter_congr hf]
  simp only [List.getElem?_cons_succ]

theorem strideGroup_cons2 (a : Bool) (t : List Bool) :
    strideGroup (a :: t) 2 = strideGroup t 1 := by
  unfold strideGroup
  rw [List.length_cons, List.range_succ_eq_map, List.filter_cons]
  simp only [decide_eq_true_eq, Nat.zero_mod]
  rw [if_neg (by omega)]
  rw [List.filter_map, List.filterMap_map]
  simp only [Function.comp_def]
  have hf : ∀ x ∈ List.range t.length,
      (decide ((Nat.succ x) % 3 = 2)) = (decide (x % 3 = 1)) := by
    intro x _
    apply decide_eq_decide.mpr
    omega
  rw [List.filter_congr hf]
  simp only [List.getElem?_cons_succ]

theorem strideGroup_lengths (s : List Bool) :
    (strideGroup s 0).length = (s.length + 2) / 3 ∧
    (strideGroup s 1).length = (s.length + 1) / 3 ∧
    (strideGroup s 2).length = s.length / 3 := by
  induction s with
  | nil => exact ⟨rfl, rfl, rfl⟩
  | cons a t ih =>
    obtain ⟨h0, h1, h2⟩ := ih
    refine ⟨?_, ?_, ?_⟩
    · rw [strideGroup_cons0, List.length_cons, List.length_cons, h2]; omega
    · rw [strideGroup_cons1, List.length_cons, h0]
    · rw [strideGroup_cons2, List.length_cons, h1]

theorem merge3_strideGroup (s : List Bool) :
    merge3 (strideGroup s 0) (strideGroup s 1) (strideGroup s 2) = s := by
  induction s with
  | nil => simp [strideGroup_nil, merge3]
  | cons a t ih =>
    rw [strideGroup_cons0, strideGroup_cons1, strideGroup_cons2]
    rw [show merge3 (a :: strideGroup t 2) (strideGroup t 0) (strideGroup t 1)
          = a :: merge3 (strideGroup t 0) (strideGroup t 1) (strideGroup t 2) by
        simp [merge3]]
    rw [ih]

theorem interleave_eq_strideGroups (s : List Bool) :
    _simple_interleave s = strideGroup s 0 ++ strideGroup s 1 ++ strideGroup s 2 := by
  unfold _simple_interleave
  split
  · rename_i h
    match s, h with
    | [], _ => rfl
    | [a], _ =>
      rw [strideGroup_cons0, strideGroup_cons1, strideGroup_cons2]
      rfl
  · rfl

theorem interleave_length (s : List Bool) :
    (_simple_interleave s).length = s.length := by
  rw [interleave_eq_strideGroups]
  obtain ⟨h0, h1, h2⟩ := strideGroup_lengths s
  simp only [List.length_append, h0, h1, h2]
  omega

/-! ### Deinterleave write-phase lemmas -/

theorem foldl_set_length (f : Nat → Nat) (v : Nat → Option Bool) :
    ∀ (l : List Nat) (a : List (Option Bool)),
    (l.foldl (fun acc i => acc.set (f i) (v i)) a).length = a.length := by
  intro l
  induction l with
  | nil => intro a; rfl
  | cons x t ih =>
    intro a
    simp only [List.foldl_cons, ih, List.length_set]

/-- Reading a slot after one write phase `for i in range(m): a[i*3+off] = v i`.
The slot `j` holds `v ((j-off)/3)` exactly when some loop index hits it. -/
theorem foldl_setPhase_getElem (v : Nat → Option Bool) (off : Nat) (hoff : off < 3) :
    ∀ (m : Nat) (a : List (Option Bool)) (j : Nat),
    (∀ i, i < m → i * 3 + off < a.length) →
    ((List.range m).foldl (fun acc i => acc.set (i * 3 + off) (v i)) a)[j]? =
      if j % 3 = off ∧ (j - off) / 3 < m then some (v ((j - off) / 3)) else a[j]? := by
  intro m
  induction m with
  | zero =>
    intro a j _
    rw [if_neg (by omega)]
    rfl
  | succ m ih =>
    intro a j hb
    rw [List.range_succ, List.foldl_append, List.foldl_cons, List.foldl_nil]
    by_cases hj : j = m * 3 + off
    · subst hj
      have hlen : m * 3 + off <
          ((List.range m).foldl (fun acc i => acc.set (i * 3 + off) (v i)) a).length := by
        rw [foldl_set_length]
        exact hb m (Nat.lt_succ_self m)
      rw [List.getElem?_set_eq_of_lt _ hlen]
      rw [if_pos (by omega)]
      have : (m * 3 + off - off) / 3 = m := by omega
      rw [this]
    · rw [List.getElem?_set_ne (by omega)]
      rw [ih a j (fun i hi => hb i (Nat.lt_succ_of_lt hi))]
      by_cases hc : j % 3 = off ∧ (j - off) / 3 < m
      · rw [if_pos hc, if_pos ⟨hc.1, Nat.lt_succ_of_lt hc.2⟩]
      · have hc' : ¬(j % 3 = off ∧ (j - off) / 3 < m + 1) := by
          intro ⟨h1, h2⟩
          apply hc
          refine ⟨h1, ?_⟩
          rcases Nat.lt_succ_iff_lt_or_eq.mp h2 with h | h
          · exact h
          · exfalso; apply hj; omega
        rw [if_neg hc, if_neg hc']

/-- Indexing `merge3` when the three groups have balanced stride-group sizes. -/
theorem merge3_getElem (a b d : List Bool)
    (h1 : d.length ≤ b.length) (h2 : b.length ≤ a.length) (h3 : a.length ≤ d.length + 1) :
    ∀ j : Nat, (merge3 a b d)[j]? =
      if j % 3 = 0 then (a[j / 3]?) else if j % 3 = 1 then (b[j / 3]?) else (d[j / 3]?) := by
  induction a, b, d using merge3.induct with
  | case1 b d =>
    intro j
    rw [List.length_nil] at h2
    have hb : b = [] := List.eq_nil_of_length_eq_zero (by omega)
    subst hb
    rw [List.length_nil] at h1
    have hd : d = [] := List.eq_nil_of_length_eq_zero (by omega)
    subst hd
    simp only [merge3]
    split <;> simp
  | case2 x a b d ih =>
    intro j
    rw [show merge3 (x :: a) b d = x :: merge3 b d a by simp [merge3]]
    match j with
    | 0 => simp
    | j + 1 =>
      rw [List.getElem?_cons_succ]
      have ih' := ih (by simp at h3 ⊢; omega) h1 (by simp at h2 ⊢; omega) j
      rw [ih']
      by_cases m0 : j % 3 = 0
      · rw [if_pos m0, if_neg (by omega), if_pos (by omega)]
        have : (j + 1) / 3 = j / 3 := by omega
        rw [this]
      · by_cases m1 : j % 3 = 1
        · rw [if_neg m0, if_pos m1, if_neg (by omega), if_neg (by omega)]
          have : (j + 1) / 3 = j / 3 := by omega
          rw [this]
        · rw [if_neg m0, if_neg m1, if_pos (by omega)]
          have : (j + 1) / 3 = j / 3 + 1 := by omega
          rw [this, List.getElem?_cons_succ]

/-- The function `_simple_deinterleave` splits its input into three consecutive
groups of sizes `ceil(n/3) = (n+2)/3`, `ceil((n-1)/3) = (n+1)/3`, `floor(n/3) = n/3`,
and reassembles them by stride (the inverse of the 3-way stride split). -/
theorem deinterleave_eq_merge3 (t : List Bool) (hlen : 2 ≤ t.length) :
    _simple_deinterleave t =
      merge3 (t.take ((t.length + 2) / 3))
        ((t.drop ((t.length + 2) / 3)).take ((t.length + 1) / 3))
        (t.drop ((t.length + 2) / 3 + (t.length + 1) / 3)) := by
  have hg0 : (t.length / 3 + (if t.length % 3 > 0 then 1 else 0)) = (t.length + 2) / 3 := by
    by_cases h : t.length % 3 > 0
    · rw [if_pos h]; omega
    · rw [if_neg h]; omega
  have hg1 : (t.length / 3 + (if t.length % 3 > 1 then 1 else 0)) = (t.length + 1) / 3 := by
    by_cases h : t.length % 3 > 1
    · rw [if_pos h]; omega
    · rw [if_neg h]; omega
  have hS : (t.length / 3 + (if t.length % 3 > 0 then 1 else 0) + t.length / 3 +
      (if t.length % 3 > 1 then 1 else 0)) = (t.length + 2) / 3 + (t.length + 1) / 3 := by
    by_cases h0 : t.length % 3 > 0 <;> by_cases h1 : t.length % 3 > 1 <;>
      simp only [h0, h1, if_true, if_false] <;> omega
  have hform : _simple_deinterleave t =
      ((List.range (t.length / 3)).foldl
        (fun a i =>
          if t.length / 3 + (if t.length % 3 > 0 then 1 else 0) + t.length / 3 +
              (if t.length % 3 > 1 then 1 else 0) + i < t.length
              && i * 3 + 2 < t.length then
            a.set (i * 3 + 2)
              (t[t.length / 3 + (if t.length % 3 > 0 then 1 else 0) + t.length / 3 +
                  (if t.length % 3 > 1 then 1 else 0) + i]?)
          else a)
        ((List.range (t.length / 3 + (if t.length % 3 > 1 then 1 else 0))).foldl
          (fun a i =>
            if t.length / 3 + (if t.length % 3 > 0 then 1 else 0) + i < t.length
                && i * 3 + 1 < t.length then
              a.set (i * 3 + 1)
                (t[t.length / 3 + (if t.length % 3 > 0 then 1 else 0) + i]?)
            else a)
          ((List.range (t.length / 3 + (if t.length % 3 > 0 then 1 else 0))).foldl
            (fun a i => if i < t.length then a.set (i * 3) (t[i]?) else a)
            (List.replicate t.length none)))).filterMap id := by
    unfold _simple_deinterleave
    rw [if_neg (by omega)]
  rw [hform]
  have E1 : (List.range (t.length / 3 + (if t.length % 3 > 0 then 1 else 0))).foldl
      (fun a i => if i < t.length then a.set (i * 3) (t[i]?) else a)
      (List.replicate t.length none)
    = (List.range ((t.length + 2) / 3)).foldl
      (fun a i => a.set (i * 3 + 0) (t[i]?))
      (List.replicate t.length none) := by
    rw [hg0]
    apply List.foldl_ext
    intro acc i hi
    rw [List.mem_range] at hi
    rw [if_pos (by omega)]
    rfl
  have E2 : ∀ arr : List (Option Bool),
      (List.range (t.length / 3 + (if t.length % 3 > 1 then 1 else 0))).foldl
        (fun a i =>
          if t.length / 3 + (if t.length % 3 > 0 then 1 else 0) + i < t.length
              && i * 3 + 1 < t.length then
            a.set (i * 3 + 1)
              (t[t.length / 3 + (if t.length % 3 > 0 then 1 else 0) + i]?)
          else a) arr
      = (List.range ((t.length + 1) / 3)).foldl
        (fun a i => a.set (i * 3 + 1) (t[(t.length + 2) / 3 + i]?)) arr := by
    intro arr
    rw [hg1]
    apply List.foldl_ext
    intro acc i hi
    rw [List.mem_range] at hi
    rw [hg0]
    rw [if_pos (by simp only [Bool.and_eq_true, decide_eq_true_eq]; omega)]
  have E3 : ∀ arr : List (Option Bool),
      (List.range (t.length / 3)).foldl
        (fun a i =>
          if t.length / 3 + (if t.length % 3 > 0 then 1 else 0) + t.length / 3 +
              (if t.length % 3 > 1 then 1 else 0) + i < t.length
              && i * 3 + 2 < t.length then
            a.set (i * 3 + 2)
              (t[t.length / 3 + (if t.length % 3 > 0 then 1 else 0) + t.length / 3 +
                  (if t.length % 3 > 1 then 1 else 0) + i]?)
          else a) arr
      = (List.range (t.length / 3)).foldl
        (fun a i => a.set (i * 3 + 2) (t[(t.length + 2) / 3 + (t.length + 1) / 3 + i]?))
        arr := by
    intro arr
    apply List.foldl_ext
    intro acc i hi
    rw [List.mem_range] at hi
    rw [hS]
    rw [if_pos (by simp only [Bool.and_eq_true, decide_eq_true_eq]; omega)]
  rw [E1, E2, E3]
  have hlen1 : ((List.range ((t.length + 2) / 3)).foldl
      (fun a i => a.set (i * 3 + 0) (t[i]?))
      (List.replicate t.length none)).length = t.length := by
    rw [foldl_set_length]
    exact List.length_replicate t.length none
  have hlen2 : ((List.range ((t.length + 1) / 3)).foldl
      (fun a i => a.set (i * 3 + 1) (t[(t.length + 2) / 3 + i]?))
      ((List.range ((t.length + 2) / 3)).foldl
        (fun a i => a.set (i * 3 + 0) (t[i]?))
        (List.replicate t.length none))).length = t.length := by
    rw [foldl_set_length]
    exact hlen1
  have hlenA : (t.take ((t.length + 2) / 3)).length = (t.length + 2) / 3 := by
    rw [List.length_take]; omega
  have hlenB : ((t.drop ((t.length + 2) / 3)).take ((t.length + 1) / 3)).length
      = (t.length + 1) / 3 := by
    rw [List.length_take, List.length_drop]; omega
  have hlenD : (t.drop ((t.length + 2) / 3 + (t.length + 1) / 3)).length = t.length / 3 := by
    rw [List.length_drop]; omega
  suffices harr : ((List.range (t.length / 3)).foldl
      (fun a i => a.set (i * 3 + 2) (t[(t.length + 2) / 3 + (t.length + 1) / 3 + i]?))
      ((List.range ((t.length + 1) / 3)).foldl
        (fun a i => a.set (i * 3 + 1) (t[(t.length + 2) / 3 + i]?))
        ((List.range ((t.length + 2) / 3)).foldl
          (fun a i => a.set (i * 3 + 0) (t[i]?))
          (List.replicate t.length none))))
    = (merge3 (t.take ((t.length + 2) / 3))
        ((t.drop ((t.length + 2) / 3)).take ((t.length + 1) / 3))
        (t.drop ((t.length + 2) / 3 + (t.length + 1) / 3))).map some by
    rw [harr]
    simp
  apply List.ext_getElem?
  intro j
  rw [foldl_setPhase_getElem _ 2 (by omega) _ _ j (by intro i hi; rw [hlen2]; omega)]
  rw [foldl_setPhase_getElem _ 1 (by omega) _ _ j (by intro i hi; rw [hlen1]; omega)]
  rw [foldl_setPhase_getElem _ 0 (by omega) _ _ j
    (by intro i hi; rw [List.length_replicate]; omega)]
  rw [List.getElem?_map]
  rw [merge3_getElem _ _ _ (by rw [hlenB, hlenD]; omega) (by rw [hlenA, hlenB]; omega)
    (by rw [hlenA, hlenD]; omega) j]
  simp only [Nat.sub_zero]
  have hmod : j % 3 = 0 ∨ j % 3 = 1 ∨ j % 3 = 2 := by omega
  rcases hmod with hm | hm | hm
  · -- residue 0: written by phase 1, element of the first group
    rw [if_neg (show ¬(j % 3 = 2 ∧ (j - 2) / 3 < t.length / 3) from by omega)]
    rw [if_neg (show ¬(j % 3 = 1 ∧ (j - 1) / 3 < (t.length + 1) / 3) from by omega)]
    rw [if_pos hm]
    by_cases hj : j < t.length
    · rw [if_pos (show j % 3 = 0 ∧ j / 3 < (t.length + 2) / 3 from ⟨hm, by omega⟩)]
      rw [List.getElem?_take_of_lt (by omega)]
      have hb := List.getElem?_eq_getElem (show j / 3 < t.length from by omega)
      rw [hb]
      rfl
    · rw [if_neg (show ¬(j % 3 = 0 ∧ j / 3 < (t.length + 2) / 3) from by omega)]
      rw [List.getElem?_eq_none (show (List.replicate t.length (none : Option Bool)).length ≤ j
        from by rw [List.length_replicate]; omega)]
      rw [List.getElem?_eq_none (show (t.take ((t.length + 2) / 3)).length ≤ j / 3
        from by rw [hlenA]; omega)]
      rfl
  · -- residue 1: written by phase 2, element of the second group
    rw [if_neg (show ¬(j % 3 = 2 ∧ (j - 2) / 3 < t.length / 3) from by omega)]
    rw [if_neg (show ¬(j % 3 = 0) from by omega), if_pos hm]
    by_cases hj : j < t.length
    · rw [if_pos (show j % 3 = 1 ∧ (j - 1) / 3 < (t.length + 1) / 3 from ⟨hm, by omega⟩)]
      rw [List.getElem?_take_of_lt (by omega), List.getElem?_drop]
      have hb := List.getElem?_eq_getElem
        (show (t.length + 2) / 3 + j / 3 < t.length from by omega)
      rw [show (t.length + 2) / 3 + (j - 1) / 3 = (t.length + 2) / 3 + j / 3 from by omega, hb]
      rfl
    · rw [if_neg (show ¬(j % 3 = 1 ∧ (j - 1) / 3 < (t.length + 1) / 3) from by omega)]
      rw [if_neg (show ¬(j % 3 = 0 ∧ j / 3 < (t.length + 2) / 3) from by omega)]
      rw [List.getElem?_eq_none (show (List.replicate t.length (none : Option Bool)).length ≤ j
        from by rw [List.length_replicate]; omega)]
      rw [List.getElem?_eq_none
        (show ((t.drop ((t.length + 2) / 3)).take ((t.length + 1) / 3)).length ≤ j / 3
          from by rw [hlenB]; omega)]
      rfl
  · -- residue 2: written by phase 3, element of the third group
    rw [if_neg (show ¬(j % 3 = 0) from by omega), if_neg (show ¬(j % 3 = 1) from by omega)]
    by_cases hj : j < t.length
    · rw [if_pos (show j % 3 = 2 ∧ (j - 2) / 3 < t.length / 3 from ⟨hm, by omega⟩)]
      rw [List.getElem?_drop]
      have hb := List.getElem?_eq_getElem
        (show (t.length + 2) / 3 + (t.length + 1) / 3 + j / 3 < t.length from by omega)
      rw [show (t.length + 2) / 3 + (t.length + 1) / 3 + (j - 2) / 3
            = (t.length + 2) / 3 + (t.length + 1) / 3 + j / 3 from by omega, hb]
      rfl
    · rw [if_neg (show ¬(j % 3 = 2 ∧ (j - 2) / 3 < t.length / 3) from by omega)]
      rw [if_neg (show ¬(j % 3 = 1 ∧ (j - 1) / 3 < (t.length + 1) / 3) from by omega)]
      rw [if_neg (show ¬(j % 3 = 0 ∧ j / 3 < (t.length + 2) / 3) from by omega)]
      rw [List.getElem?_eq_none (show (List.replicate t.length (none : Option Bool)).length ≤ j
        from by rw [List.length_replicate]; omega)]
      rw [List.getElem?_drop]
      rw [List.getElem?_eq_none
        (show t.length ≤ (t.length + 2) / 3 + (t.length + 1) / 3 + j / 3 from by omega)]
      rfl

/-- Round trip: deinterleaving an interleaved bitstream restores the original. -/
theorem deinterleave_interleave (s : List Bool) :
    _simple_deinterleave (_simple_interleave s) = s := by
  by_cases h : s.length ≤ 1
  · have h1 : _simple_interleave s = s := by
      unfold _simple_interleave; rw [if_pos h]
    have h2 : _simple_deinterleave s = s := by
      unfold _simple_deinterleave; rw [if_pos h]
    rw [h1, h2]
  · have hlen : 2 ≤ (_simple_interleave s).length := by
      rw [interleave_length]; omega
    rw [deinterleave_eq_merge3 _ hlen, interleave_length, interleave_eq_strideGroups]
    obtain ⟨h0, h1, h2⟩ := strideGroup_lengths s
    have hA : (strideGroup s 0 ++ strideGroup s 1 ++ strideGroup s 2).take
        ((s.length + 2) / 3) = strideGroup s 0 := by
      rw [List.append_assoc, ← h0, List.take_left]
    have hB : ((strideGroup s 0 ++ strideGroup s 1 ++ strideGroup s 2).drop
        ((s.length + 2) / 3)).take ((s.length + 1) / 3) = strideGroup s 1 := by
      rw [List.append_assoc, ← h0, List.drop_left, ← h1, List.take_left]
    have hD : (strideGroup s 0 ++ strideGroup s 1 ++ strideGroup s 2).drop
        ((s.length + 2) / 3 + (s.length + 1) / 3) = strideGroup s 2 := by
      rw [show (s.length + 2) / 3 + (s.length + 1) / 3
            = (strideGroup s 0 ++ strideGroup s 1).length from by
          rw [List.length_append, h0, h1]]
      exact List.drop_left _ _
    rw [hA, hB, hD]
    exact merge3_strideGroup s

/-! ## FEC stage (src/bitpaper/simple_interleaved_core.py, lines 360-410) -/

/-- Outcome of the black-box `reedsolo.RSCodec(nsym).decode(data)`: the
corrected message (the source reduces tuple results to their first component),
a `ReedSolomonError` (decoding failure), or any other exception. -/
inductive RSOutcome where
  | ok : List Nat → RSOutcome
  | reedSolomonError : RSOutcome
  | otherError : RSOutcome
deriving DecidableEq, Repr

/-- Embeds `max(1, int(255 * ratio))` for a candidate ratio given in percent.  The
Python float products are `255*0.05 = 12.75`, `255*0.10 = 25.5`,
`255*0.15 = 38.25`, truncated by `int` to 12, 25, 38 — exactly
`255 * percent / 100` in integer arithmetic. -/
def eccSymbols (percent : Nat) : Nat := max 1 (255 * percent / 100)

/-- The trial loop of `_optimized_error_correction_decode`: the `for ecc_level
in [0.05, 0.10, 0.15]` loop.  A `ReedSolomonError` is caught by the inner
`except` and moves on to the next candidate; any other exception escapes to
the outer handler, which returns the input; when the loop is exhausted the
input is returned. -/
def eccDecodeLoop (rsDecode : Nat → List Nat → RSOutcome) (data : List Nat) :
    List Nat → List Nat
  | [] => data
  | percent :: rest =>
    match rsDecode (eccSymbols percent) data with
    | .ok result => result
    | .reedSolomonError => eccDecodeLoop rsDecode data rest
    | .otherError => data

/-- Embeds `SimpleInterleavedBitPaperDecoder._optimized_error_correction_decode`
(lines 386-410).  `rs_codec` says whether `self.rs_codec` was successfully
constructed in `__init__` (it is, under the default configuration); when it is
`False` the input is returned untouched. -/
def _optimized_error_correction_decode (rsDecode : Nat → List Nat → RSOutcome)
    (rs_codec : Bool) (data : List Nat) : List Nat :=
  if !rs_codec then data
  else eccDecodeLoop rsDecode data [5, 10, 15]

/-! ## Payload codec (lines 194-211 and 569-601) -/

/-- Big-endian byte list of `value`, `length` bytes (the payload of Python's
`value.to_bytes(length, 'big')`). -/
def beBytes (value length : Nat) : List Nat :=
  (List.range length).map (fun i => value / 256 ^ (length - 1 - i) % 256)

/-- Python `value.to_bytes(length, 'big')`; `none` models the `OverflowError`
raised when the value does not fit. -/
def to_bytes (value length : Nat) : Option (List Nat) :=
  if value < 256 ^ length then some (beBytes value length) else none

/-- Big-endian `int.from_bytes(bs, 'big')`. -/
def from_bytes (bs : List Nat) : Nat :=
  bs.foldl (fun acc b => acc * 256 + b) 0

/-- Python slice `l[a:b]` for `0 ≤ a ≤ b`: clamps at the end of the list and
never raises. -/
def pySlice (l : List Nat) (a b : Nat) : List Nat := (l.drop a).take (b - a)

/-- Embeds `SimpleInterleavedBitPaperEncoder._create_compact_payload` (lines 194-211):
binary format `[version][timestamp][size][signature_len][signature][data_len]
[data]`, all integers big-endian fixed width.  `timestamp` is the wall-clock
`int(time.time())`, passed in as a parameter. -/
def _create_compact_payload (timestamp : Nat) (encrypted_data signature : List Nat) :
    Option (List Nat) := do
  let version := 1
  let original_size := encrypted_data.length
  let signature_len := signature.length
  let vb ← to_bytes version 1
  let tb ← to_bytes timestamp 8
  let ob ← to_bytes original_size 4
  let sb ← to_bytes signature_len 2
  let db ← to_bytes encrypted_data.length 4
  pure (vb ++ tb ++ ob ++ sb ++ signature ++ db ++ encrypted_data)

/-- The metadata dictionary returned by `_parse_compact_payload`. -/
structure PayloadMeta where
  version : Nat
  timestamp : Nat
  original_size : Nat
  signature : List Nat
deriving DecidableEq, Repr

/-- Embeds `SimpleInterleavedBitPaperDecoder._parse_compact_payload` (lines 569-601).
Every field is read with Python slices, which clamp at the end of the buffer;
the function is total (it performs no length validation and never raises). -/
def _parse_compact_payload (payload_bytes : List Nat) : List Nat × PayloadMeta :=
  let offset := 0
  let version := from_bytes (pySlice payload_bytes offset (offset + 1))
  let offset := offset + 1
  let timestamp := from_bytes (pySlice payload_bytes offset (offset + 8))
  let offset := offset + 8
  let original_size := from_bytes (pySlice payload_bytes offset (offset + 4))
  let offset := offset + 4
  let signature_len := from_bytes (pySlice payload_bytes offset (offset + 2))
  let offset := offset + 2
  let signature := pySlice payload_bytes offset (offset + signature_len)
  let offset := offset + signature_len
  let data_len := from_bytes (pySlice payload_bytes offset (offset + 4))
  let offset := offset + 4
  let data := pySlice payload_bytes offset (offset + data_len)
  (data, ⟨version, timestamp, original_size, signature⟩)

/-! ### Payload codec lemmas -/

theorem beBytes_length (v k : Nat) : (beBytes v k).length = k := by
  unfold beBytes
  rw [List.length_map, List.length_range]

theorem beBytes_succ (v k : Nat) :
    beBytes v (k + 1) = beBytes (v / 256) k ++ [v % 256] := by
  unfold beBytes
  rw [List.range_succ, List.map_append]
  congr 1
  · apply List.map_congr_left
    intro i hi
    rw [List.mem_range] at hi
    have h1 : k + 1 - 1 - i = (k - 1 - i) + 1 := by omega
    rw [h1, pow_succ]
    rw [Nat.div_div_eq_div_mul v 256 (256 ^ (k - 1 - i))]
    congr 2
    ring
  · simp

theorem from_bytes_append_singleton (bs : List Nat) (b : Nat) :
    from_bytes (bs ++ [b]) = from_bytes bs * 256 + b := by
  unfold from_bytes
  rw [List.foldl_append]
  rfl

theorem from_bytes_beBytes (k v : Nat) (h : v < 256 ^ k) :
    from_bytes (beBytes v k) = v := by
  induction k generalizing v with
  | zero =>
    have : v = 0 := by simpa using h
    subst this
    rfl
  | succ k ih =>
    rw [beBytes_succ, from_bytes_append_singleton, ih (v / 256) (by
      rw [pow_succ] at h
      exact Nat.div_lt_of_lt_mul (by omega))]
    omega

theorem pySlice_append_exact (pre mid post : List Nat) :
    pySlice (pre ++ mid ++ post) pre.length (pre.length + mid.length) = mid := by
  unfold pySlice
  rw [List.append_assoc, List.drop_left]
  rw [show pre.length + mid.length - pre.length = mid.length from by omega]
  exact List.take_left mid post

theorem pySlice_length_le (l : List Nat) (a b : Nat) :
    (pySlice l a b).length ≤ l.length := by
  unfold pySlice
  rw [List.length_take, List.length_drop]
  omega

/-- Parsing inverts payload creation: the seven fields are recovered exactly,
whenever the declared lengths fit their fixed-width big-endian encodings. -/
theorem parse_create_payload (timestamp : Nat) (encrypted_data signature : List Nat)
    (ht : timestamp < 256 ^ 8) (hs : signature.length < 256 ^ 2)
    (hd : encrypted_data.length < 256 ^ 4) :
    ∃ p, _create_compact_payload timestamp encrypted_data signature = some p ∧
      _parse_compact_payload p =
        (encrypted_data, ⟨1, timestamp, encrypted_data.length, signature⟩) := by
  have hcreate : _create_compact_payload timestamp encrypted_data signature =
      some (beBytes 1 1 ++ beBytes timestamp 8 ++ beBytes encrypted_data.length 4 ++
        beBytes signature.length 2 ++ signature ++ beBytes encrypted_data.length 4 ++
        encrypted_data) := by
    simp only [_create_compact_payload, to_bytes]
    rw [if_pos (show (1 : Nat) < 256 ^ 1 from by norm_num), if_pos ht, if_pos hd,
      if_pos hs]
    rfl
  refine ⟨_, hcreate, ?_⟩
  set p := beBytes 1 1 ++ beBytes timestamp 8 ++ beBytes encrypted_data.length 4 ++
    beBytes signature.length 2 ++ signature ++ beBytes encrypted_data.length 4 ++
    encrypted_data with hpdef
  have hp : p = beBytes 1 1 ++ (beBytes timestamp 8 ++ (beBytes encrypted_data.length 4 ++
      (beBytes signature.length 2 ++ (signature ++ (beBytes encrypted_data.length 4 ++
        encrypted_data))))) := by
    rw [hpdef]
    simp only [List.append_assoc]
  -- successive tails of the payload
  have d1 : p.drop 1 = beBytes timestamp 8 ++ (beBytes encrypted_data.length 4 ++
      (beBytes signature.length 2 ++ (signature ++ (beBytes encrypted_data.length 4 ++
        encrypted_data)))) := by
    rw [hp]
    exact List.drop_left' (beBytes_length 1 1)
  have d9 : p.drop 9 = beBytes encrypted_data.length 4 ++
      (beBytes signature.length 2 ++ (signature ++ (beBytes encrypted_data.length 4 ++
        encrypted_data))) := by
    rw [show (9 : Nat) = 1 + 8 from rfl, ← List.drop_drop, d1]
    exact List.drop_left' (beBytes_length timestamp 8)
  have d13 : p.drop 13 = beBytes signature.length 2 ++ (signature ++
      (beBytes encrypted_data.length 4 ++ encrypted_data)) := by
    rw [show (13 : Nat) = 9 + 4 from rfl, ← List.drop_drop, d9]
    exact List.drop_left' (beBytes_length encrypted_data.length 4)
  have d15 : p.drop 15 = signature ++ (beBytes encrypted_data.length 4 ++
      encrypted_data) := by
    rw [show (15 : Nat) = 13 + 2 from rfl, ← List.drop_drop, d13]
    exact List.drop_left' (beBytes_length signature.length 2)
  have d15s : p.drop (15 + signature.length) = beBytes encrypted_data.length 4 ++
      encrypted_data := by
    rw [← List.drop_drop, d15]
    exact List.drop_left' rfl
  have d19s : p.drop (15 + signature.length + 4) = encrypted_data := by
    rw [← List.drop_drop, d15s]
    exact List.drop_left' (beBytes_length encrypted_data.length 4)
  -- the fields, as the parser slices them
  have f1 : pySlice p 0 1 = beBytes 1 1 := by
    unfold pySlice
    rw [List.drop_zero, hp]
    exact List.take_left' (beBytes_length 1 1)
  have f2 : pySlice p 1 9 = beBytes timestamp 8 := by
    unfold pySlice
    rw [show (9 : Nat) - 1 = 8 from rfl, d1]
    exact List.take_left' (beBytes_length timestamp 8)
  have f3 : pySlice p 9 13 = beBytes encrypted_data.length 4 := by
    unfold pySlice
    rw [show (13 : Nat) - 9 = 4 from rfl, d9]
    exact List.take_left' (beBytes_length encrypted_data.length 4)
  have f4 : pySlice p 13 15 = beBytes signature.length 2 := by
    unfold pySlice
    rw [show (15 : Nat) - 13 = 2 from rfl, d13]
    exact List.take_left' (beBytes_length signature.length 2)
  have f5 : pySlice p 15 (15 + signature.length) = signature := by
    unfold pySlice
    rw [show 15 + signature.length - 15 = signature.length from by omega, d15]
    exact List.take_left' rfl
  have f6 : pySlice p (15 + signature.length) (15 + signature.length + 4) =
      beBytes encrypted_data.length 4 := by
    unfold pySlice
    rw [show 15 + signature.length + 4 - (15 + signature.length) = 4 from by omega, d15s]
    exact List.take_left' (beBytes_length encrypted_data.length 4)
  have f7 : pySlice p (15 + signature.length + 4)
      (15 + signature.length + 4 + encrypted_data.length) = encrypted_data := by
    unfold pySlice
    rw [show 15 + signature.length + 4 + encrypted_data.length -
        (15 + signature.length + 4) = encrypted_data.length from by omega, d19s]
    exact List.take_length encrypted_data
  have hparse : _parse_compact_payload p =
      (pySlice p (15 + from_bytes (pySlice p 13 15) + 4)
        (15 + from_bytes (pySlice p 13 15) + 4 +
          from_bytes (pySlice p (15 + from_bytes (pySlice p 13 15))
            (15 + from_bytes (pySlice p 13 15) + 4))),
        ⟨from_bytes (pySlice p 0 1), from_bytes (pySlice p 1 9),
          from_bytes (pySlice p 9 13),
          pySlice p 15 (15 + from_bytes (pySlice p 13 15))⟩) := rfl
  rw [hparse, f4, from_bytes_beBytes 2 signature.length hs, f6,
    from_bytes_beBytes 4 encrypted_data.length hd, f7, f1, f2, f3, f5,
    from_bytes_beBytes 1 1 (by norm_num), from_bytes_beBytes 8 timestamp ht,
    from_bytes_beBytes 4 encrypted_data.length hd]

/-! ## Cipher stage (lines 40-80 and 534-543) -/

/-- A PBKDF2-derived Fernet key, symbolically: the black-box KDF is treated as
injective, so a key is identified by (password, salt, iteration count) — two
derivations agree exactly when all three inputs agree. -/
structure DerivedKey where
  password : String
  salt : String
  iterations : Nat
deriving DecidableEq, Repr

/-- The fixed `salt = b'bitpaper_salt_2024'`. -/
def bitpaper_salt : String := "bitpaper_salt_2024"

/-- The iteration count chosen by
`SimpleInterleavedBitPaperEncoder._create_optimized_cipher` (lines 40-61):
`data_size = getattr(self, '_last_data_size', 1000)` and the 1000 / 10000
thresholds. -/
def encoderIterations (last_data_size : Option Nat) : Nat :=
  let data_size := last_data_size.getD 1000
  if data_size < 1000 then 1000
  else if data_size < 10000 then 5000
  else 10000

/-- Embeds `_create_optimized_cipher`: Fernet key via PBKDF2-HMAC-SHA256 with the
fixed salt and the adaptive iteration count. -/
def _create_optimized_cipher (password : String) (last_data_size : Option Nat) :
    DerivedKey :=
  ⟨password, bitpaper_salt, encoderIterations last_data_size⟩

/-- The decoder always derives with 100000 iterations
(`SimpleInterleavedBitPaperDecoder._create_cipher`, lines 534-543). -/
def decoderIterations : Nat := 100000

def _create_cipher (password : String) : DerivedKey :=
  ⟨password, bitpaper_salt, decoderIterations⟩

/-- A symbolic Fernet token: Fernet is authenticated encryption, so decryption
succeeds exactly when attempted with the derived key that produced the token. -/
structure FernetToken where
  key : DerivedKey
  plaintext : List Nat
deriving DecidableEq, Repr

def fernetEncrypt (key : DerivedKey) (data : List Nat) : FernetToken := ⟨key, data⟩

/-- Embeds `Fernet(key).decrypt(token)`: `none` models the `InvalidToken` exception
raised on a key/tag mismatch. -/
def fernetDecrypt (key : DerivedKey) (token : FernetToken) : Option (List Nat) :=
  if token.key = key then some token.plaintext else none

/-! ## Signature stage (lines 88-192 and 551-567) -/

inductive PaddingScheme where
  | pkcs1v15
  | pssAuto
  | pssMaxLength
deriving DecidableEq, Repr

/-- A symbolic RSA signature: which key produced it, over which bytes, with
which padding. -/
structure RSASignature where
  keyId : Nat
  data : List Nat
  scheme : PaddingScheme
deriving DecidableEq, Repr

/-- Symbolic `private_key.sign(data, padding, SHA256)`: the `cryptography`
library accepts `PSS.AUTO` as a salt length only when verifying, so signing
with `pssAuto` raises (`none`). -/
def rsaSign (keyId : Nat) (data : List Nat) (scheme : PaddingScheme) :
    Option RSASignature :=
  match scheme with
  | .pssAuto => none
  | s => some ⟨keyId, data, s⟩

/-- Symbolic `public_key.verify(signature, data, padding, SHA256)` as a Bool
(`true` = returns, `false` = raises `InvalidSignature`).  A signature verifies
when it was made by the matching private key over the same data and the
verification padding accepts the signing padding: PKCS1v15 only matches
PKCS1v15; PSS with MAX_LENGTH salt expects a max-length salt; PSS with AUTO
infers the salt length and accepts any PSS signature. -/
def rsaVerify (keyId : Nat) (data : List Nat) (sig : RSASignature)
    (scheme : PaddingScheme) : Bool :=
  decide (sig.keyId = keyId) && decide (sig.data = data) &&
    (match scheme, sig.scheme with
     | .pkcs1v15, .pkcs1v15 => true
     | .pssAuto, .pssAuto => true
     | .pssAuto, .pssMaxLength => true
     | .pssMaxLength, .pssMaxLength => true
     | _, _ => false)

/-- Embeds `_secure_sign` (lines 138-148): PSS with MAX_LENGTH salt, no fallback. -/
def _secure_sign (keyId : Nat) (data : List Nat) : Option RSASignature :=
  rsaSign keyId data .pssMaxLength

/-- Embeds `_fast_sign` (lines 108-120): PKCS1v15, falling back to `_secure_sign` on
any exception. -/
def _fast_sign (keyId : Nat) (data : List Nat) : Option RSASignature :=
  match rsaSign keyId data .pkcs1v15 with
  | some s => some s
  | none => _secure_sign keyId data

/-- Embeds `_balanced_sign` (lines 122-136): PSS with AUTO salt, falling back to
`_secure_sign` on any exception (AUTO always raises when signing, so this
always falls back). -/
def _balanced_sign (keyId : Nat) (data : List Nat) : Option RSASignature :=
  match rsaSign keyId data .pssAuto with
  | some s => some s
  | none => _secure_sign keyId data

/-- Embeds `_optimized_sign_data` (lines 88-106): no private key → the empty
signature `b''` (modelled `none`); otherwise the scheme is selected by data
size: < 1000 B fast, < 10000 B balanced, else secure. -/
def _optimized_sign_data (private_key : Option Nat) (data : List Nat) :
    Option RSASignature :=
  match private_key with
  | none => none
  | some keyId =>
    if data.length < 1000 then _fast_sign keyId data
    else if data.length < 10000 then _balanced_sign keyId data
    else _secure_sign keyId data

/-- Embeds `SimpleInterleavedBitPaperDecoder._verify_signature` (lines 551-567): the
verification the decode pipeline actually performs — a single attempt with PSS
MAX_LENGTH padding; a missing key or empty signature returns `True`
unchecked. -/
def _verify_signature (public_key : Option Nat) (data : List Nat)
    (signature : Option RSASignature) : Bool :=
  match public_key, signature with
  | some k, some s => rsaVerify k data s .pssMaxLength
  | _, _ => true

/-- Embeds `SimpleInterleavedBitPaperEncoder._optimized_verify_signature`
(lines 150-192): tries PKCS1v15, then PSS AUTO, then PSS MAX_LENGTH, first
success wins.  The method reads `self.public_key`, an attribute `__init__`
never assigns on the encoder class, and it is called nowhere in the
repository; its trial-order body is embedded here with the key supplied
explicitly. -/
def _optimized_verify_signature (public_key : Option Nat) (data : List Nat)
    (signature : Option RSASignature) : Bool :=
  match public_key, signature with
  | some k, some s =>
    if rsaVerify k data s .pkcs1v15 then true
    else if rsaVerify k data s .pssAuto then true
    else if rsaVerify k data s .pssMaxLength then true
    else false
  | _, _ => true

/-! ## Encoder state and the secure-mode encode pipeline (lines 19-72, 360-384
and 412-450) -/

/-- The attributes of a `SimpleInterleavedBitPaperEncoder` that the pipeline
reads.  `__init__` (lines 19-38) assigns `self.cipher` but never
`self.password`, `self._cached_cipher` or `self._last_data_size`; an absent
attribute is `none`, and reading one raises `AttributeError`. -/
structure EncoderState where
  cipher : DerivedKey
  password : Option String
  private_key : Option Nat
  _cached_cipher : Option DerivedKey
  _last_data_size : Option Nat
deriving DecidableEq, Repr

/-- Embeds `SimpleInterleavedBitPaperEncoder.__init__`: derives `self.cipher` (with
`_last_data_size` still absent) and loads the optional private key; the
`password` attribute is never stored. -/
def encoderInit (password : String) (private_key : Option Nat) : EncoderState :=
  { cipher := _create_optimized_cipher password none
    password := none
    private_key := private_key
    _cached_cipher := none
    _last_data_size := none }

/-- Embeds `_optimized_encrypt` (lines 63-72): when `_cached_cipher` is absent the
code evaluates `self._create_optimized_cipher(self.password)` — and
`self.password` was never assigned, so the attribute access raises
`AttributeError`.  Only afterwards would `_last_data_size` be stored. -/
def _optimized_encrypt (st : EncoderState) (data : List Nat) :
    Except PyError (FernetToken × EncoderState) :=
  match st._cached_cipher with
  | some cached =>
    .ok (fernetEncrypt cached data, { st with _last_data_size := some data.length })
  | none =>
    match st.password with
    | none => .error .attributeError
    | some pw =>
      let cached := _create_optimized_cipher pw st._last_data_size
      .ok (fernetEncrypt cached data,
        { st with _cached_cipher := some cached, _last_data_size := some data.length })

/-- Embeds `_optimized_error_correction` (lines 360-384): adaptive ECC symbol count
by data size (5% / 10% / 15%); `rsEncode nsym data` is the black-box
`reedsolo.RSCodec(nsym).encode(data)`, `none` = it raised (the `except`
clause prints and returns the input). -/
def _optimized_error_correction (rsEncode : Nat → List Nat → Option (List Nat))
    (rs_codec : Bool) (data : List Nat) : List Nat :=
  if !rs_codec then data
  else
    let ecc_symbols :=
      if data.length < 1000 then eccSymbols 5
      else if data.length < 5000 then eccSymbols 10
      else eccSymbols 15
    match rsEncode ecc_symbols data with
    | some out => out
    | none => data

/-- Embeds `_optimized_bytes_to_bitstream` (lines 213-234): 8 bits per byte,
most-significant bit first (`'1'` ↔ the bit is set). -/
def _optimized_bytes_to_bitstream (data : List Nat) : List Bool :=
  data.flatMap (fun byte => (List.range 8).map (fun j => byte.testBit (7 - j)))

/-- Lines 438-445 of `file_to_bitstream`: the A4 capacity check on the
interleaved bitstream.  `max_cols = self.bits_per_row` and
`max_rows = (3508 - 8) // self.cell_size` (default config: `413` and `583`,
so `max_bits = 240779`); exceeding it raises
`ValueError("Data too large for A4: ...")`, otherwise the bitstream passes
through unchanged. -/
def capacityCheck (interleaved_bitstream : List Bool) : Except PyError (List Bool) :=
  let max_cols := Config.bits_per_row
  let max_rows := (3508 - 8) / Config.cell_size
  let max_bits := max_cols * max_rows
  if interleaved_bitstream.length > max_bits then
    .error (.valueError "Data too large for A4")
  else .ok interleaved_bitstream

/-- Embeds `SimpleInterleavedBitPaperEncoder.file_to_bitstream` (lines 412-450):
sign, encrypt, pack, zlib-compress, FEC-encode, bit-convert, interleave,
capacity-check.  `rsaSigBytes` / `tokenBytes` serialize the symbolic
signature and Fernet token to bytes, `zlibCompress` and `rsEncode` are the
external libraries, `timestamp` is the wall clock. -/
def file_to_bitstream (st : EncoderState)
    (rsaSigBytes : RSASignature → List Nat) (tokenBytes : FernetToken → List Nat)
    (zlibCompress : List Nat → List Nat)
    (rsEncode : Nat → List Nat → Option (List Nat)) (rs_codec : Bool)
    (timestamp : Nat) (data : List Nat) :
    Except PyError (List Bool × EncoderState) :=
  let signature := match _optimized_sign_data st.private_key data with
    | none => ([] : List Nat)
    | some s => rsaSigBytes s
  match _optimized_encrypt st data with
  | .error e => .error e
  | .ok (token, st) =>
    let encrypted_data := tokenBytes token
    match _create_compact_payload timestamp encrypted_data signature with
    | none => .error .overflowError
    | some payload =>
      let compressed := zlibCompress payload
      let ecc_encoded := _optimized_error_correction rsEncode rs_codec compressed
      let bitstream := _optimized_bytes_to_bitstream ecc_encoded
      let interleaved_bitstream := _simple_interleave bitstream
      match capacityCheck interleaved_bitstream with
      | .error e => .error e
      | .ok out => .ok (out, st)

/-! ## Compression selector (src/bitpaper/core.py, lines 56-82) -/

/-- Embeds `BitPaperEncoder._best_compression`: try zlib, lzma, bz2 (each a black box,
`none` = that compressor raised), keep the smallest output — strict
improvement only, so the earliest minimum wins — and prefix the winner's
1-byte algorithm id `{zlib: 0, lzma: 1, bz2: 2}`.  If every attempt raised,
fall back to plain `zlib.compress(data, level=9)` with no id byte (a zlib
failure there propagates). -/
def _best_compression (zlibC lzmaC bz2C : List Nat → Option (List Nat))
    (data : List Nat) : Option (List Nat) :=
  let algorithms : List (Nat × (List Nat → Option (List Nat))) :=
    [(0, zlibC), (1, lzmaC), (2, bz2C)]
  let best := algorithms.foldl
    (fun best algo =>
      match algo.2 data with
      | none => best
      | some compressed =>
        match best with
        | none => some (algo.1, compressed)
        | some b =>
          if compressed.length < b.2.length then some (algo.1, compressed) else best)
    none
  match best with
  | none => zlibC data
  | some b => some (b.1 :: b.2)

/-! ## Memory manager (src/bitpaper/memory_manager.py) -/

/-- A pooled Python object. -/
inductive PoolObj where
  | bytearrayObj (contents : List Nat)
  | numpyArrayObj (size : Nat)
  | pilImageObj
  | bitstreamObj (contents : List Nat)
deriving DecidableEq, Repr

/-- Embeds `UltraFastMemoryManager`: `object_pools` is the dict name → deque. -/
structure UltraFastMemoryManager where
  max_pool_size : Nat
  object_pools : List (String × List PoolObj)
deriving DecidableEq, Repr

/-- Python `dict.get` on the pools dict. -/
def dictGet (pools : List (String × List PoolObj)) (k : String) :
    Option (List PoolObj) :=
  match pools.find? (fun p => p.1 == k) with
  | some p => some p.2
  | none => none

/-- Embeds `__init__` + `_init_pools`: four empty deques, `max_pool_size = 100`. -/
def memoryManagerInit : UltraFastMemoryManager :=
  { max_pool_size := 100
    object_pools := [("bytearray", []), ("numpy_array", []),
      ("pil_image", []), ("bitstream", [])] }

/-- The `# Create new object` block of `get_object` (lines 38-50): what a
pool-less implementation would always do (unknown type → `ValueError`). -/
def createFresh (obj_type : String) (size : Option Nat) : Except PyError PoolObj :=
  match obj_type with
  | "bytearray" => .ok (.bytearrayObj (List.replicate (size.getD 1024) 0))
  | "numpy_array" => .ok (.numpyArrayObj (size.getD 1000))
  | "pil_image" => .ok .pilImageObj
  | "bitstream" => .ok (.bitstreamObj (List.replicate (size.getD 1000) 48))
  | _ => .error (.valueError "Unknown object type")

/-- Embeds `get_object` (lines 31-50): `if pool and pool:` pops the left end of a
non-empty pool; a missing or empty pool falls through to allocation.  Returns
the object (or error) together with the successor state. -/
def get_object (st : UltraFastMemoryManager) (obj_type : String)
    (size : Option Nat) : Except PyError PoolObj × UltraFastMemoryManager :=
  match dictGet st.object_pools obj_type with
  | some (x :: rest) =>
    (.ok x, { st with object_pools := (st.object_pools.map
        (fun p => if p.1 == obj_type then (p.1, rest) else p)) })
  | _ => (createFresh obj_type size, st)

/-- The `# Clear object before returning` block of `return_object`
(lines 57-65). -/
def clearObj (obj_type : String) (obj : PoolObj) : PoolObj :=
  match obj_type, obj with
  | "bytearray", .bytearrayObj _ => .bytearrayObj []
  | "numpy_array", .numpyArrayObj n => .numpyArrayObj n
  | "bitstream", .bitstreamObj _ => .bitstreamObj []
  | _, o => o

/-- Embeds `return_object` (lines 52-67): the guard is
`if pool and len(pool) < self.max_pool_size:` — an EMPTY deque is falsy, so
returning an object to an empty pool silently drops it and leaves the state
unchanged. -/
def return_object (st : UltraFastMemoryManager) (obj_type : String)
    (obj : PoolObj) : UltraFastMemoryManager :=
  match dictGet st.object_pools obj_type with
  | some (x :: rest) =>
    if (x :: rest).length < st.max_pool_size then
      { st with object_pools := (st.object_pools.map
          (fun p => if p.1 == obj_type then (p.1, p.2 ++ [clearObj obj_type obj]) else p)) }
    else st
  | _ => st

/-- States reachable from a fresh manager by any sequence of `get_object` /
`return_object` calls. -/
inductive Reachable : UltraFastMemoryManager → Prop where
  | init : Reachable memoryManagerInit
  | get (st : UltraFastMemoryManager) (obj_type : String) (size : Option Nat) :
      Reachable st → Reachable (get_object st obj_type size).2
  | ret (st : UltraFastMemoryManager) (obj_type : String) (obj : PoolObj) :
      Reachable st → Reachable (return_object st obj_type obj)

/-- Every pool of the manager is empty. -/
def allPoolsEmpty (st : UltraFastMemoryManager) : Prop :=
  ∀ name pool, (name, pool) ∈ st.object_pools → pool = []

/-! ## Grid mapper (src/bitpaper/core.py, lines 111-131 and 188-213) -/

/-- The fixed A4 canvas, in pixels. -/
def A4Width : Nat := 2480

def A4Height : Nat := 3508

/-- One `draw.rectangle([x0, y0, x1, y1], fill=color)`: PIL fills the box with
both corners INCLUSIVE, clipped to the canvas. -/
structure PaintRect where
  x0 : Nat
  y0 : Nat
  x1 : Nat
  y1 : Nat
  color : Nat
deriving DecidableEq, Repr

def covers (r : PaintRect) (y x : Nat) : Bool :=
  decide (r.y0 ≤ y ∧ y ≤ r.y1 ∧ r.x0 ≤ x ∧ x ≤ r.x1 ∧ y < A4Height ∧ x < A4Width)

/-- Painting a rectangle over an intensity function `(y, x) ↦ value`. -/
def applyRect (pix : Nat → Nat → Nat) (r : PaintRect) : Nat → Nat → Nat :=
  fun y x => if covers r y x then r.color else pix y x

/-- Embeds `draw.rectangle([0, 0, width - 1, height - 1], outline=0, width=3)`
(line 120): PIL strokes four 3-pixel strips just inside the box. -/
def borderRects : List PaintRect :=
  [⟨0, 0, 2479, 2, 0⟩, ⟨0, 3505, 2479, 3507, 0⟩,
   ⟨0, 0, 2, 3507, 0⟩, ⟨2477, 0, 2479, 3507, 0⟩]

/-- The cell rectangle painted for bit index `idx` (lines 123-129):
`row = idx // bits_per_row`, `col = idx % bits_per_row`,
`[x, y, x + cell_size, y + cell_size]` (inclusive corners, so 7×7 pixels),
black for `'1'` and white for `'0'`. -/
def cellRect (idx : Nat) (bit : Bool) : PaintRect :=
  let row := idx / Config.bits_per_row
  let col := idx % Config.bits_per_row
  let x := Config.border_width + col * Config.cell_size
  let y := Config.border_width + row * Config.cell_size
  ⟨x, y, x + Config.cell_size, y + Config.cell_size, if bit then 0 else 255⟩

/-- Embeds `BitPaperEncoder._bitstream_to_simple_image` (lines 111-131): a white A4
canvas, the border rectangle, then one filled cell per bit in index order
(`for idx, bit in enumerate(bitstream)`). -/
def _bitstream_to_simple_image (bitstream : List Bool) : Nat → Nat → Nat :=
  let img : Nat → Nat → Nat := fun _ _ => 255
  let img := borderRects.foldl applyRect img
  (List.range bitstream.length).foldl
    (fun pix idx => applyRect pix (cellRect idx (bitstream.getD idx false))) img

/-- The decoder's data region `img_array[3:3507, 3:2481]` (lines 190-196):
numpy clips column 2481 to the canvas width 2480, leaving 3504 rows × 2477
columns. -/
def dataRegionHeight : Nat := 3504

def dataRegionWidth : Nat := 2477

/-- The pixel values of the cell slice `data_region[y:y+6, x:x+6]` for grid
cell `(row, col)` (line 208) — numpy clips the slice at the region boundary. -/
def cellPixels (pix : Nat → Nat → Nat) (row col : Nat) : List Nat :=
  let y := row * Config.cell_size
  let x := col * Config.cell_size
  let h := min (y + Config.cell_size) dataRegionHeight - y
  let w := min (x + Config.cell_size) dataRegionWidth - x
  (List.range h).flatMap (fun dy => (List.range w).map
    (fun dx => pix (Config.border_width + y + dy) (Config.border_width + x + dx)))

/-- Embeds `cell.mean() < 128` (line 209), stated exactly over the integers: the mean
of `k` byte values is below 128 iff their sum is below `128 * k`.  (The float
computation agrees: the sum is an exact small integer, and the quotient can
only round across the threshold when `|sum/k - 128| < 2^-46`, impossible for
`k ≤ 36`.) -/
def cellIsBlack (pix : Nat → Nat → Nat) (row col : Nat) : Bool :=
  decide ((cellPixels pix row col).sum < 128 * (cellPixels pix row col).length)

/-- Python truthiness of the `expected_length` argument: `None` and `0` are
both falsy. -/
def pyTruthy : Option Nat → Bool
  | none => false
  | some n => n != 0

/-- The nested `for row / for col` loop of `_simple_image_to_bitstream`
(lines 203-213): one bit appended per cell, returning
`bitstream[:expected_length]` as soon as the accumulated string is long
enough — but only when `expected_length` is truthy. -/
def readLoop (pix : Nat → Nat → Nat) (expected_length : Option Nat) :
    List (Nat × Nat) → List Bool → List Bool
  | [], acc => acc
  | rc :: rest, acc =>
    let acc2 := acc ++ [cellIsBlack pix rc.1 rc.2]
    if pyTruthy expected_length && decide (acc2.length ≥ expected_length.getD 0) then
      acc2.take (expected_length.getD 0)
    else readLoop pix expected_length rest acc2

/-- The row-major list of grid cells scanned by the decoder. -/
def cellGrid (rows cols : Nat) : List (Nat × Nat) :=
  (List.range rows).flatMap (fun row =>
    (List.range cols).map (fun col => (row, col)))

/-- Embeds `BitPaperDecoder._simple_image_to_bitstream` (lines 188-213) on a
grayscale A4 image (`image_to_bitstream` converts to grayscale and
delegates).  `rows` is `ceil(expected_length / bits_per_row)` when
`expected_length` is truthy, else `max_rows`. -/
def _simple_image_to_bitstream (pix : Nat → Nat → Nat)
    (expected_length : Option Nat) : List Bool :=
  let rows := if pyTruthy expected_length then
      (expected_length.getD 0 + Config.bits_per_row - 1) / Config.bits_per_row
    else Config.max_rows
  readLoop pix expected_length (cellGrid rows Config.bits_per_row) []

/-! ### Grid mapper lemmas -/

theorem foldl_applyRect_not_covered (g : Nat → PaintRect) :
    ∀ (l : List Nat) (pix : Nat → Nat → Nat) (y x : Nat),
    (∀ i ∈ l, covers (g i) y x = false) →
    (l.foldl (fun p i => applyRect p (g i)) pix) y x = pix y x := by
  intro l
  induction l with
  | nil => intro pix y x _; rfl
  | cons a t ih =>
    intro pix y x h
    rw [List.foldl_cons]
    rw [ih _ y x (fun i hi => h i (List.mem_cons_of_mem a hi))]
    unfold applyRect
    rw [h a (List.mem_cons_self a t)]
    simp

/-- Pixel ownership: inside the read region of cell `idx`, the rendered image
has exactly that cell's color — the cells painted after `idx` lie strictly
below or strictly to the right and never repaint these pixels. -/
theorem rendered_cell_value (s : List Bool) (hn : s.length ≤ 241192)
    (idx : Nat) (hidx : idx < s.length) (dy dx : Nat) (hdy : dy < 6)
    (hdx : dx < min ((idx % 413) * 6 + 6) 2477 - (idx % 413) * 6) :
    _bitstream_to_simple_image s (3 + (idx / 413) * 6 + dy) (3 + (idx % 413) * 6 + dx)
      = if s.getD idx false then 0 else 255 := by
  have hform : _bitstream_to_simple_image s =
      (List.range s.length).foldl
        (fun pix i => applyRect pix (cellRect i (s.getD i false)))
        (borderRects.foldl applyRect (fun _ _ => 255)) := rfl
  rw [hform]
  have hsplit : List.range s.length
      = List.range (idx + 1) ++ List.range' (idx + 1) (s.length - (idx + 1)) := by
    have h := List.range'_append 0 (idx + 1) (s.length - (idx + 1)) 1
    simp only [Nat.one_mul, Nat.zero_add] at h
    rw [List.range_eq_range', List.range_eq_range', h]
    congr 1
    omega
  rw [hsplit, List.range_succ, List.foldl_append, List.foldl_append,
    List.foldl_cons, List.foldl_nil]
  rw [foldl_applyRect_not_covered _ _ _ _ _ ?later]
  case later =>
    intro i hi
    rcases List.mem_range'.mp hi with ⟨j, hj, rfl⟩
    unfold covers cellRect
    apply decide_eq_false
    intro hc
    obtain ⟨c1, c2, c3, c4, c5, c6⟩ := hc
    simp only [Config.border_width, Config.cell_size, Config.bits_per_row] at c1 c2 c3 c4
    omega
  unfold applyRect
  rw [if_pos ?inside]
  case inside =>
    unfold covers cellRect
    apply decide_eq_true
    simp only [Config.border_width, Config.cell_size, Config.bits_per_row,
      A4Width, A4Height]
    refine ⟨by omega, by omega, by omega, by omega, by omega, by omega⟩
  rfl

theorem length_flatMap_of_const {α β : Type} (f : α → List β) (l : List α) (k : Nat)
    (h : ∀ a ∈ l, (f a).length = k) : (l.flatMap f).length = l.length * k := by
  induction l with
  | nil => simp
  | cons a t ih =>
    rw [List.flatMap_cons, List.length_append, h a (List.mem_cons_self a t),
      ih (fun x hx => h x (List.mem_cons_of_mem a hx)), List.length_cons]
    ring

theorem cellPixels_length (pix : Nat → Nat → Nat) (row col : Nat) :
    (cellPixels pix row col).length =
      (min (row * 6 + 6) 3504 - row * 6) * (min (col * 6 + 6) 2477 - col * 6) := by
  unfold cellPixels
  simp only [Config.cell_size, dataRegionHeight, dataRegionWidth]
  rw [length_flatMap_of_const _ _ (min (col * 6 + 6) 2477 - col * 6)
    (fun a _ => by rw [List.length_map, List.length_range])]
  rw [List.length_range]

theorem cellPixels_rendered (s : List Bool) (hn : s.length ≤ 241192) (idx : Nat)
    (hidx : idx < s.length) :
    ∀ v ∈ cellPixels (_bitstream_to_simple_image s) (idx / 413) (idx % 413),
      v = if s.getD idx false then 0 else 255 := by
  intro v hv
  unfold cellPixels at hv
  simp only [Config.cell_size, Config.border_width, dataRegionHeight,
    dataRegionWidth, List.mem_flatMap, List.mem_map, List.mem_range] at hv
  obtain ⟨dy, hdy, dx, hdx, rfl⟩ := hv
  have hy6 : min (idx / 413 * 6 + 6) 3504 - idx / 413 * 6 = 6 := by
    rw [Nat.min_eq_left (by omega)]
    omega
  rw [hy6] at hdy
  exact rendered_cell_value s hn idx hidx dy dx hdy hdx

theorem sum_eq_of_all_eq (l : List Nat) (v : Nat) (h : ∀ x ∈ l, x = v) :
    l.sum = v * l.length := by
  induction l with
  | nil => simp
  | cons a t ih =>
    rw [List.sum_cons, h a (List.mem_cons_self a t),
      ih (fun x hx => h x (List.mem_cons_of_mem a hx)), List.length_cons]
    ring

/-- Reading back a rendered cell recovers its bit: the read region is uniform
in the cell's color, so the mean test `< 128` returns exactly the bit. -/
theorem cellIsBlack_rendered (s : List Bool) (hn : s.length ≤ 241192) (idx : Nat)
    (hidx : idx < s.length) :
    cellIsBlack (_bitstream_to_simple_image s) (idx / 413) (idx % 413)
      = s.getD idx false := by
  have hall := cellPixels_rendered s hn idx hidx
  have hlen := cellPixels_length (_bitstream_to_simple_image s) (idx / 413) (idx % 413)
  have hpos : 0 < (cellPixels (_bitstream_to_simple_image s) (idx / 413)
      (idx % 413)).length := by
    have hrow : min (idx / 413 * 6 + 6) 3504 - idx / 413 * 6 = 6 := by
      rw [Nat.min_eq_left (by omega)]
      omega
    have hcol : 5 ≤ min (idx % 413 * 6 + 6) 2477 - idx % 413 * 6 := by
      rcases Nat.le_total (idx % 413 * 6 + 6) 2477 with h | h
      · rw [Nat.min_eq_left h]; omega
      · rw [Nat.min_eq_right h]
        have : idx % 413 < 413 := Nat.mod_lt idx (by omega)
        omega
    rw [hlen, hrow]
    omega
  unfold cellIsBlack
  cases hbit : s.getD idx false with
  | false =>
    rw [hbit] at hall
    simp only [if_neg Bool.false_ne_true] at hall
    rw [sum_eq_of_all_eq _ 255 hall]
    apply decide_eq_false
    omega
  | true =>
    rw [hbit] at hall
    simp only [if_pos rfl] at hall
    rw [sum_eq_of_all_eq _ 0 hall]
    apply decide_eq_true
    omega

theorem cellGrid_eq_map_range (rows : Nat) :
    cellGrid rows 413 = (List.range (rows * 413)).map (fun i => (i / 413, i % 413)) := by
  induction rows with
  | zero => rfl
  | succ r ih =>
    unfold cellGrid at ih ⊢
    rw [List.range_succ, List.flatMap_append, ih]
    rw [show (r + 1) * 413 = r * 413 + 413 from by ring, List.range_add,
      List.map_append, List.map_map]
    congr 1
    rw [List.flatMap_cons, List.flatMap_nil, List.append_nil]
    apply List.map_congr_left
    intro c hc
    rw [List.mem_range] at hc
    simp only [Function.comp_apply]
    have hdiv : (r * 413 + c) / 413 = r := by omega
    have hmod : (r * 413 + c) % 413 = c := by omega
    rw [hdiv, hmod]

theorem readLoop_falsy (pix : Nat → Nat → Nat) (el : Option Nat)
    (hel : pyTruthy el = false) :
    ∀ (cells : List (Nat × Nat)) (acc : List Bool),
    readLoop pix el cells acc
      = acc ++ cells.map (fun rc => cellIsBlack pix rc.1 rc.2) := by
  intro cells
  induction cells with
  | nil => intro acc; simp [readLoop]
  | cons rc rest ih =>
    intro acc
    unfold readLoop
    rw [hel]
    simp only [Bool.false_and, Bool.false_eq_true, if_false]
    rw [ih (acc ++ [cellIsBlack pix rc.1 rc.2])]
    simp

theorem readLoop_truthy (pix : Nat → Nat → Nat) (m : Nat) (hm : m ≠ 0) :
    ∀ (cells : List (Nat × Nat)) (acc : List Bool),
    acc.length < m → m ≤ acc.length + cells.length →
    readLoop pix (some m) cells acc
      = acc ++ (cells.take (m - acc.length)).map
          (fun rc => cellIsBlack pix rc.1 rc.2) := by
  intro cells
  induction cells with
  | nil =>
    intro acc h1 h2
    rw [List.length_nil] at h2
    omega
  | cons rc rest ih =>
    intro acc h1 h2
    unfold readLoop
    have htr : pyTruthy (some m) = true := by
      simp only [pyTruthy, bne_iff_ne, ne_eq]
      omega
    rw [htr]
    simp only [Bool.true_and, List.length_append, List.length_cons,
      List.length_nil, Option.getD_some]
    by_cases hdone : acc.length + (0 + 1) ≥ m
    · rw [if_pos (by simp; omega)]
      have hm1 : m = acc.length + 1 := by omega
      have htk : m - acc.length = 1 := by omega
      rw [htk]
      rw [List.take_succ_cons, List.take_zero, List.map_cons, List.map_nil]
      rw [List.take_of_length_le (by rw [List.length_append]; simp; omega)]
    · rw [if_neg (by simp; omega)]
      rw [ih (acc ++ [cellIsBlack pix rc.1 rc.2])
        (by rw [List.length_append]; simp; omega)
        (by rw [List.length_append]; simp at h2 ⊢; omega)]
      rw [List.length_append,
        show ([cellIsBlack pix rc.1 rc.2] : List Bool).length = 1 from rfl]
      rw [show m - acc.length = (m - (acc.length + 1)) + 1 from by omega]
      rw [List.take_succ_cons, List.map_cons]
      simp

theorem take_map_range {β : Type} (g : Nat → β) (T m : Nat) (h : m ≤ T) :
    ((List.range T).map g).take m = (List.range m).map g := by
  rw [← List.map_take, List.take_range, Nat.min_eq_left h]

theorem map_getD_range (s : List Bool) :
    (List.range s.length).map (fun i => s.getD i false) = s := by
  induction s with
  | nil => rfl
  | cons a t ih =>
    rw [List.length_cons, List.range_succ_eq_map, List.map_cons, List.map_map]
    rw [show ((fun i => (a :: t).getD i false) ∘ Nat.succ)
          = (fun i => t.getD i false) from rfl]
    rw [ih, List.getD_cons_zero]

/-- Rendering then reading back with `expected_length = len(s)` recovers the
bitstream exactly, for any length from 1 up to the full page
(`413 * 584 = 241192` bits). -/
theorem grid_mapper_roundtrip (s : List Bool) (h1 : 1 ≤ s.length)
    (h2 : s.length ≤ 241192) :
    _simple_image_to_bitstream (_bitstream_to_simple_image s) (some s.length) = s := by
  have htr : pyTruthy (some s.length) = true := by
    simp only [pyTruthy, bne_iff_ne, ne_eq]
    omega
  unfold _simple_image_to_bitstream
  rw [htr]
  simp only [if_true, Option.getD_some, Config.bits_per_row]
  have hcells := cellGrid_eq_map_range ((s.length + 413 - 1) / 413)
  have hclen : (cellGrid ((s.length + 413 - 1) / 413) 413).length
      = ((s.length + 413 - 1) / 413) * 413 := by
    rw [hcells, List.length_map, List.length_range]
  rw [readLoop_truthy _ s.length (by omega) _ [] (by simp; omega)
    (by rw [hclen]; simp; omega)]
  rw [hcells, List.length_nil, Nat.sub_zero, List.nil_append]
  rw [take_map_range _ _ _ (by omega)]
  rw [List.map_map]
  have hfun : ∀ i ∈ List.range s.length,
      ((fun rc : Nat × Nat => cellIsBlack (_bitstream_to_simple_image s) rc.1 rc.2) ∘
        (fun i => (i / 413, i % 413))) i = s.getD i false := by
    intro i hi
    rw [List.mem_range] at hi
    simp only [Function.comp_apply]
    exact cellIsBlack_rendered s h2 i hi
  rw [List.map_congr_left hfun]
  exact map_getD_range s

/-- With an empty bitstream, `expected_length = 0` is falsy, so the decoder
ignores it and reads the whole 584-row page: 241192 bits, not 0. -/
theorem grid_mapper_empty_full_page :
    (_simple_image_to_bitstream (_bitstream_to_simple_image []) (some 0)).length
      = 241192 := by
  unfold _simple_image_to_bitstream
  rw [show pyTruthy (some 0) = false from rfl]
  simp only [Bool.false_eq_true, if_false, Config.max_rows, Config.bits_per_row]
  rw [readLoop_falsy _ (some 0) rfl]
  rw [List.nil_append, List.length_map]
  rw [cellGrid_eq_map_range, List.length_map, List.length_range]

/-! ### Memory manager lemmas -/

theorem dictGet_of_allPoolsEmpty (st : UltraFastMemoryManager)
    (h : allPoolsEmpty st) (k : String) :
    dictGet st.object_pools k = none ∨ dictGet st.object_pools k = some [] := by
  unfold dictGet
  cases hf : st.object_pools.find? (fun p => p.1 == k) with
  | none => left; rfl
  | some pr =>
    right
    have hmem := List.mem_of_find?_eq_some hf
    have hempty := h pr.1 pr.2 hmem
    show some pr.2 = some []
    rw [hempty]

theorem get_object_always_fresh (st : UltraFastMemoryManager)
    (h : allPoolsEmpty st) (obj_type : String) (size : Option Nat) :
    get_object st obj_type size = (createFresh obj_type size, st) := by
  unfold get_object
  rcases dictGet_of_allPoolsEmpty st h obj_type with hd | hd <;> rw [hd]

theorem return_object_noop (st : UltraFastMemoryManager)
    (h : allPoolsEmpty st) (obj_type : String) (obj : PoolObj) :
    return_object st obj_type obj = st := by
  unfold return_object
  rcases dictGet_of_allPoolsEmpty st h obj_type with hd | hd <;> rw [hd]

theorem reachable_allPoolsEmpty (st : UltraFastMemoryManager)
    (h : Reachable st) : allPoolsEmpty st := by
  induction h with
  | init =>
    intro name pool hm
    simp only [memoryManagerInit, List.mem_cons, List.not_mem_nil, or_false,
      Prod.mk.injEq] at hm
    rcases hm with ⟨_, h⟩ | ⟨_, h⟩ | ⟨_, h⟩ | ⟨_, h⟩ <;> exact h
  | get st obj_type size hr ih =>
    rw [get_object_always_fresh st ih obj_type size]
    exact ih
  | ret st obj_type obj hr ih =>
    rw [return_object_noop st ih obj_type obj]
    exact ih

/-! ## Claim theorems -/

/-- C1: the claim states that, with identical password and configuration and
no corruption, `bitstream_to_data (file_to_bitstream x) = x` for all byte
sequences `x`.  The code cannot satisfy this for ANY input: on every call,
`file_to_bitstream` reaches `_optimized_encrypt`, which (the cipher cache
being empty on a fresh encoder) evaluates `self.password` — an attribute
`__init__` never assigns — and raises `AttributeError` before any bitstream
exists.  (Even apart from that crash, the encoder would derive its Fernet key
with 1000/5000/10000 PBKDF2 iterations while the decoder always uses 100000,
so the keys can never match; see the C3 theorem.)  This theorem evaluates the
encode pipeline of a freshly constructed encoder on every input, the empty
sequence included. -/
theorem C1_encode_always_raises_attribute_error :
    ∀ (rsaSigBytes : RSASignature → List Nat) (tokenBytes : FernetToken → List Nat)
      (zlibCompress : List Nat → List Nat)
      (rsEncode : Nat → List Nat → Option (List Nat)) (rs_codec : Bool)
      (timestamp : Nat) (password : String) (private_key : Option Nat)
      (data : List Nat),
    file_to_bitstream (encoderInit password private_key) rsaSigBytes tokenBytes
      zlibCompress rsEncode rs_codec timestamp data
      = .error .attributeError := by
  intro rsaSigBytes tokenBytes zlibCompress rsEncode rs_codec timestamp password pk data
  rfl

/-- C2: `_simple_deinterleave (_simple_interleave s) = s` for every bit
sequence `s`; `_simple_interleave` is the fixed 3-way stride permutation
(indices 0,3,6,… then 1,4,7,… then 2,5,8,…, the three `strideGroup`s);
`_simple_deinterleave` splits its input into three consecutive groups of sizes
`ceil(n/3) = (n+2)/3`, `ceil((n-1)/3) = (n+1)/3`, `floor(n/3) = n/3` and
inverts the stride (`merge3`); and both functions are the identity on inputs
of length 0 and 1. -/
theorem C2_interleave_inverse :
    (∀ s : List Bool, _simple_deinterleave (_simple_interleave s) = s) ∧
    (∀ s : List Bool, _simple_interleave s
        = strideGroup s 0 ++ strideGroup s 1 ++ strideGroup s 2) ∧
    (∀ t : List Bool, 2 ≤ t.length → _simple_deinterleave t =
        merge3 (t.take ((t.length + 2) / 3))
          ((t.drop ((t.length + 2) / 3)).take ((t.length + 1) / 3))
          (t.drop ((t.length + 2) / 3 + (t.length + 1) / 3))) ∧
    (∀ s : List Bool, s.length ≤ 1 →
      _simple_interleave s = s ∧ _simple_deinterleave s = s) := by
  refine ⟨deinterleave_interleave, interleave_eq_strideGroups,
    deinterleave_eq_merge3, ?_⟩
  intro s h
  constructor
  · unfold _simple_interleave
    rw [if_pos h]
  · unfold _simple_deinterleave
    rw [if_pos h]

/-- Witness for C2 at concrete inputs. -/
theorem C2_interleave_inverse_witness :
    _simple_deinterleave (_simple_interleave [true, false, true, true])
      = [true, false, true, true] ∧
    (2 ≤ ([true, false, true, true] : List Bool).length ∧
      _simple_deinterleave [true, false, true, true] =
        merge3 (([true, false, true, true] : List Bool).take 2)
          ((([true, false, true, true] : List Bool).drop 2).take 1)
          (([true, false, true, true] : List Bool).drop 3)) ∧
    (([false] : List Bool).length ≤ 1 ∧ _simple_interleave [false] = [false]) :=
  ⟨C2_interleave_inverse.1 _,
    ⟨by decide, C2_interleave_inverse.2.2.1 [true, false, true, true] (by decide)⟩,
    ⟨by decide, (C2_interleave_inverse.2.2.2 [false] (by decide)).1⟩⟩

/-- C3: the encoder's PBKDF2 iteration count is adaptive (1000 below 1000 B,
5000 below 10000 B, 10000 otherwise — measured on the PREVIOUS call's size,
defaulting to 1000, hence 5000 on the first encryption), but the decoder
always derives with 100000 iterations, a value the encoder can never produce:
the derived keys therefore never match for any password, contradicting the
claim that matching-configuration decryption succeeds. -/
theorem C3_kdf_iteration_mismatch :
    (∀ sz : Option Nat, encoderIterations sz = 1000 ∨ encoderIterations sz = 5000 ∨
      encoderIterations sz = 10000) ∧
    encoderIterations none = 5000 ∧
    decoderIterations = 100000 ∧
    (∀ (password : String) (sz : Option Nat),
      _create_optimized_cipher password sz ≠ _create_cipher password) := by
  have hall : ∀ sz : Option Nat, encoderIterations sz = 1000 ∨
      encoderIterations sz = 5000 ∨ encoderIterations sz = 10000 := by
    intro sz
    by_cases h1 : sz.getD 1000 < 1000
    · left; simp [encoderIterations, h1]
    · by_cases h2 : sz.getD 1000 < 10000
      · right; left; simp [encoderIterations, h1, h2]
      · right; right; simp [encoderIterations, h1, h2]
  refine ⟨hall, rfl, rfl, ?_⟩
  intro pw sz h
  have hiter := congrArg DerivedKey.iterations h
  simp only [_create_optimized_cipher, _create_cipher] at hiter
  rcases hall sz with h1 | h1 | h1 <;> rw [h1] at hiter <;>
    exact absurd hiter (by decide)

/-- Witness for C3 at the concrete password "pw" on the first encryption
(no cached data size): the encoder derives with 5000 iterations, the decoder
with 100000, and the derived keys differ. -/
theorem C3_kdf_iteration_mismatch_witness :
    encoderIterations none = 5000 ∧ decoderIterations = 100000 ∧
    _create_optimized_cipher "pw" none ≠ _create_cipher "pw" :=
  ⟨C3_kdf_iteration_mismatch.2.1, C3_kdf_iteration_mismatch.2.2.1,
    C3_kdf_iteration_mismatch.2.2.2 "pw" none⟩

/-- C4 counterexample: a 15-byte buffer that ends right after declaring
`sig_len = 5`.  The declared length exceeds the 0 remaining bytes, yet
`_parse_compact_payload` returns normally — with an empty, silently truncated
signature — instead of raising (the claimed `TruncatedPayloadError` exists
nowhere in the codebase). -/
theorem C4_truncated_returns_result :
    _parse_compact_payload [1, 0, 0, 0, 0, 0, 0, 0, 0, 0, 0, 0, 0, 0, 5]
      = ([], ⟨1, 0, 0, []⟩) := by
  rfl

/-- C4 (amended): the parser reads version(1B), timestamp(8B),
original_size(4B), sig_len(2B), signature, cipher_len(4B), ciphertext in
order as big-endian fixed-width integers — parsing inverts
`_create_compact_payload` whenever the fields fit their widths — but performs
NO length validation: Python slices clamp at the end of the buffer, so for
every input (truncated ones included) it returns normally with fields that
are sub-ranges of the buffer; no `TruncatedPayloadError` is raised or even
defined. -/
theorem C4_payload_codec :
    (∀ (timestamp : Nat) (encrypted_data signature : List Nat),
      timestamp < 256 ^ 8 → signature.length < 256 ^ 2 →
      encrypted_data.length < 256 ^ 4 →
      ∃ p, _create_compact_payload timestamp encrypted_data signature = some p ∧
        _parse_compact_payload p
          = (encrypted_data, ⟨1, timestamp, encrypted_data.length, signature⟩)) ∧
    (∀ buf : List Nat, ((_parse_compact_payload buf).1).length ≤ buf.length ∧
      ((_parse_compact_payload buf).2).signature.length ≤ buf.length) :=
  ⟨parse_create_payload,
    fun buf => ⟨pySlice_length_le buf _ _, pySlice_length_le buf _ _⟩⟩

/-- Witness for C4 at concrete inputs. -/
theorem C4_payload_codec_witness :
    (∃ p, _create_compact_payload 0 [171] [7] = some p ∧
      _parse_compact_payload p = ([171], ⟨1, 0, 1, [7]⟩)) ∧
    ((_parse_compact_payload [9, 9]).1).length ≤ ([9, 9] : List Nat).length :=
  ⟨C4_payload_codec.1 0 [171] [7] (by norm_num) (by norm_num) (by norm_num),
    (C4_payload_codec.2 [9, 9]).1⟩

/-- C5: FEC decoding tries the candidate ratios 5%, 10%, 15% in increasing
order — `max(1, int(255*ratio))` giving 12, 25, 38 Reed-Solomon symbols —
returns the first candidate's successful correction, and returns the input
unmodified (never raising) when all three fail. -/
theorem C5_fec_decode_trial_order :
    ∀ (rsDecode : Nat → List Nat → RSOutcome) (data : List Nat),
    (eccSymbols 5 = 12 ∧ eccSymbols 10 = 25 ∧ eccSymbols 15 = 38) ∧
    (∀ r, rsDecode 12 data = .ok r →
      _optimized_error_correction_decode rsDecode true data = r) ∧
    (rsDecode 12 data = .reedSolomonError → ∀ r, rsDecode 25 data = .ok r →
      _optimized_error_correction_decode rsDecode true data = r) ∧
    (rsDecode 12 data = .reedSolomonError → rsDecode 25 data = .reedSolomonError →
      ∀ r, rsDecode 38 data = .ok r →
      _optimized_error_correction_decode rsDecode true data = r) ∧
    (rsDecode 12 data = .reedSolomonError → rsDecode 25 data = .reedSolomonError →
      rsDecode 38 data = .reedSolomonError →
      _optimized_error_correction_decode rsDecode true data = data) := by
  intro rsDecode data
  have hu1 : eccDecodeLoop rsDecode data [5, 10, 15]
      = match rsDecode 12 data with
        | .ok result => result
        | .reedSolomonError => eccDecodeLoop rsDecode data [10, 15]
        | .otherError => data := rfl
  have hu2 : eccDecodeLoop rsDecode data [10, 15]
      = match rsDecode 25 data with
        | .ok result => result
        | .reedSolomonError => eccDecodeLoop rsDecode data [15]
        | .otherError => data := rfl
  have hu3 : eccDecodeLoop rsDecode data [15]
      = match rsDecode 38 data with
        | .ok result => result
        | .reedSolomonError => eccDecodeLoop rsDecode data []
        | .otherError => data := rfl
  refine ⟨⟨rfl, rfl, rfl⟩, ?_, ?_, ?_, ?_⟩
  · intro r h
    show eccDecodeLoop rsDecode data [5, 10, 15] = r
    rw [hu1, h]
  · intro h1 r h2
    show eccDecodeLoop rsDecode data [5, 10, 15] = r
    rw [hu1, h1, hu2, h2]
  · intro h1 h2 r h3
    show eccDecodeLoop rsDecode data [5, 10, 15] = r
    rw [hu1, h1, hu2, h2, hu3, h3]
  · intro h1 h2 h3
    show eccDecodeLoop rsDecode data [5, 10, 15] = data
    rw [hu1, h1, hu2, h2, hu3, h3]
    rfl

/-- Witness for C5 with a concrete decoder that fails at 12 symbols and
succeeds at 25. -/
theorem C5_fec_decode_trial_order_witness :
    _optimized_error_correction_decode
      (fun n _ => if n = 25 then RSOutcome.ok [9] else RSOutcome.reedSolomonError)
      true [1, 2] = [9] :=
  (C5_fec_decode_trial_order
    (fun n _ => if n = 25 then RSOutcome.ok [9] else RSOutcome.reedSolomonError)
    [1, 2]).2.2.1 rfl [9] rfl

/-- C6 counterexample: for a 1-byte input (< 1000 B) the encoder signs with
the fast scheme (PKCS1v15), but the decode pipeline's `_verify_signature`
tries only PSS MAX_LENGTH padding and rejects it — contradicting the claim
that the decode pipeline accepts signatures from any of the three schemes by
trying fast, then balanced, then secure padding. -/
theorem C6_decoder_rejects_fast_signature :
    _verify_signature (some 7) [0] (_optimized_sign_data (some 7) [0]) = false := by
  decide

/-- C6 (amended): the decode pipeline's `_verify_signature` tries ONLY PSS
MAX_LENGTH padding.  It accepts the encoder's signatures for data of 1000
bytes or more (the balanced path falls back to the secure scheme because PSS
AUTO cannot be used for signing, so those signatures are all PSS MAX_LENGTH),
but rejects the fast PKCS1v15 signatures produced for data under 1000 bytes.
The try-fast-then-balanced-then-secure verifier the claim describes exists
only as `_optimized_verify_signature` on the encoder class — it accepts a
valid signature of any scheme, but no decode path calls it.  A missing key
means nothing is verified. -/
theorem C6_verify_only_pss_max :
    (∀ (keyId : Nat) (data : List Nat), 1000 ≤ data.length →
      _verify_signature (some keyId) data
        (_optimized_sign_data (some keyId) data) = true) ∧
    (∀ (keyId : Nat) (data : List Nat), data.length < 1000 →
      _verify_signature (some keyId) data
        (_optimized_sign_data (some keyId) data) = false) ∧
    (∀ (keyId : Nat) (data : List Nat) (s : RSASignature),
      s.keyId = keyId → s.data = data →
      _optimized_verify_signature (some keyId) data (some s) = true) ∧
    (∀ (data : List Nat) (s : Option RSASignature),
      _verify_signature none data s = true) := by
  refine ⟨?_, ?_, ?_, ?_⟩
  · intro keyId data h
    have hsig : _optimized_sign_data (some keyId) data
        = some ⟨keyId, data, .pssMaxLength⟩ := by
      show (if data.length < 1000 then _fast_sign keyId data
        else if data.length < 10000 then _balanced_sign keyId data
        else _secure_sign keyId data) = some ⟨keyId, data, .pssMaxLength⟩
      rw [if_neg (by omega)]
      by_cases h10 : data.length < 10000
      · rw [if_pos h10]
        rfl
      · rw [if_neg h10]
        rfl
    rw [hsig]
    show rsaVerify keyId data ⟨keyId, data, .pssMaxLength⟩ .pssMaxLength = true
    unfold rsaVerify
    simp
  · intro keyId data h
    have hsig : _optimized_sign_data (some keyId) data
        = some ⟨keyId, data, .pkcs1v15⟩ := by
      show (if data.length < 1000 then _fast_sign keyId data
        else if data.length < 10000 then _balanced_sign keyId data
        else _secure_sign keyId data) = some ⟨keyId, data, .pkcs1v15⟩
      rw [if_pos h]
      rfl
    rw [hsig]
    show rsaVerify keyId data ⟨keyId, data, .pkcs1v15⟩ .pssMaxLength = false
    unfold rsaVerify
    simp
  · intro keyId data s h1 h2
    obtain ⟨kid, d, scheme⟩ := s
    simp only at h1 h2
    subst h1
    subst h2
    have hd1 : (decide (kid = kid) : Bool) = true := decide_eq_true rfl
    have hd2 : (decide (d = d) : Bool) = true := decide_eq_true rfl
    cases scheme with
    | pkcs1v15 =>
      show (if rsaVerify kid d ⟨kid, d, .pkcs1v15⟩ .pkcs1v15 then true
        else if rsaVerify kid d ⟨kid, d, .pkcs1v15⟩ .pssAuto then true
        else if rsaVerify kid d ⟨kid, d, .pkcs1v15⟩ .pssMaxLength then true
        else false) = true
      rw [show rsaVerify kid d ⟨kid, d, .pkcs1v15⟩ .pkcs1v15
          = (decide (kid = kid) && decide (d = d) && true) from rfl, hd1, hd2]
      rfl
    | pssAuto =>
      show (if rsaVerify kid d ⟨kid, d, .pssAuto⟩ .pkcs1v15 then true
        else if rsaVerify kid d ⟨kid, d, .pssAuto⟩ .pssAuto then true
        else if rsaVerify kid d ⟨kid, d, .pssAuto⟩ .pssMaxLength then true
        else false) = true
      rw [show rsaVerify kid d ⟨kid, d, .pssAuto⟩ .pkcs1v15
          = (decide (kid = kid) && decide (d = d) && false) from rfl, hd1, hd2]
      rw [show rsaVerify kid d ⟨kid, d, .pssAuto⟩ .pssAuto
          = (decide (kid = kid) && decide (d = d) && true) from rfl, hd1, hd2]
      rfl
    | pssMaxLength =>
      show (if rsaVerify kid d ⟨kid, d, .pssMaxLength⟩ .pkcs1v15 then true
        else if rsaVerify kid d ⟨kid, d, .pssMaxLength⟩ .pssAuto then true
        else if rsaVerify kid d ⟨kid, d, .pssMaxLength⟩ .pssMaxLength then true
        else false) = true
      rw [show rsaVerify kid d ⟨kid, d, .pssMaxLength⟩ .pkcs1v15
          = (decide (kid = kid) && decide (d = d) && false) from rfl, hd1, hd2]
      rw [show rsaVerify kid d ⟨kid, d, .pssMaxLength⟩ .pssAuto
          = (decide (kid = kid) && decide (d = d) && true) from rfl, hd1, hd2]
      rfl
  · intro data s
    cases s <;> rfl

/-- Witness for C6 at concrete inputs. -/
theorem C6_verify_only_pss_max_witness :
    _verify_signature (some 3) (List.replicate 1000 0)
      (_optimized_sign_data (some 3) (List.replicate 1000 0)) = true ∧
    _verify_signature (some 3) [5] (_optimized_sign_data (some 3) [5]) = false ∧
    _optimized_verify_signature (some 3) [5] (some ⟨3, [5], .pkcs1v15⟩) = true :=
  ⟨C6_verify_only_pss_max.1 3 _ (by rw [List.length_replicate]),
    C6_verify_only_pss_max.2.1 3 [5] (by norm_num),
    C6_verify_only_pss_max.2.2.1 3 [5] ⟨3, [5], .pkcs1v15⟩ rfl rfl⟩

/-- C7 counterexample: for the empty bitstream the claim demands that reading
the rendered page back with `expected_length = 0` reproduce the empty
bitstream; but `0` is falsy in Python, so the decoder ignores it and reads the
whole 584-row page, returning 241192 bits. -/
theorem C7_empty_bitstream_reads_full_page :
    _simple_image_to_bitstream (_bitstream_to_simple_image []) (some 0) ≠ [] := by
  intro h
  have hlen := grid_mapper_empty_full_page
  rw [h] at hlen
  simp at hlen

/-- C7 (amended): for every bitstream of length 1 up to a full page
(`413 * 584 = 241192` bits, in particular length 1 and a full page), rendering
with `BitPaperEncoder._bitstream_to_simple_image` and reading back with
`BitPaperDecoder._simple_image_to_bitstream` under zero noise, passing the
bitstream's length as `expected_length`, reproduces the exact original
bitstream (bit `i` is 1 iff the mean intensity of cell
`(i div cols, i mod cols)` is below the fixed threshold 128).  For length 0
the round trip fails: `expected_length = 0` is falsy, so the decoder reads
the full page and returns 241192 bits. -/
theorem C7_grid_mapping :
    (∀ s : List Bool, 1 ≤ s.length → s.length ≤ 241192 →
      _simple_image_to_bitstream (_bitstream_to_simple_image s) (some s.length) = s) ∧
    (_simple_image_to_bitstream (_bitstream_to_simple_image []) (some 0)).length
      = 241192 :=
  ⟨grid_mapper_roundtrip, grid_mapper_empty_full_page⟩

/-- Witness for C7 at a concrete one-bit bitstream. -/
theorem C7_grid_mapping_witness :
    _simple_image_to_bitstream (_bitstream_to_simple_image [true])
      (some ([true] : List Bool).length) = [true] :=
  C7_grid_mapping.1 [true] (by decide) (by decide)

/-- C8 counterexample: one bit past the capacity, the check raises
`ValueError("Data too large for A4")` — not the claimed
`CapacityExceededError`, which exists nowhere in the codebase; and the
capacity is `413 * ((3508-8)//6) = 240779` bits, not
`bits_per_row * Config.max_rows = 413 * 584`. -/
theorem C8_capacity_error_is_valueerror :
    capacityCheck (List.replicate 240780 false)
      = .error (.valueError "Data too large for A4") := by
  show (if (List.replicate 240780 false).length > 240779 then
      Except.error (PyError.valueError "Data too large for A4")
    else Except.ok (List.replicate 240780 false))
    = Except.error (PyError.valueError "Data too large for A4")
  rw [List.length_replicate, if_pos (by omega)]

/-- C8 (amended): the capacity check in `file_to_bitstream` passes any
interleaved bitstream of at most `bits_per_row * ((3508-8) // cell_size)
= 413 * 583 = 240779` bits through unchanged (no truncation), and raises
`ValueError` — not a `CapacityExceededError`, which the codebase never
defines — as soon as one more bit is present, before any image is produced.
(The full secure-mode pipeline additionally fails earlier, at encryption; see
C1.) -/
theorem C8_capacity_check :
    (∀ s : List Bool, s.length ≤ 240779 → capacityCheck s = .ok s) ∧
    (∀ s : List Bool, 240779 < s.length →
      capacityCheck s = .error (.valueError "Data too large for A4")) ∧
    Config.bits_per_row * ((3508 - 8) / Config.cell_size) = 240779 := by
  refine ⟨?_, ?_, rfl⟩
  · intro s h
    show (if s.length > 240779 then
        Except.error (PyError.valueError "Data too large for A4")
      else Except.ok s) = Except.ok s
    rw [if_neg (by omega)]
  · intro s h
    show (if s.length > 240779 then
        Except.error (PyError.valueError "Data too large for A4")
      else Except.ok s) = Except.error (PyError.valueError "Data too large for A4")
    rw [if_pos (by omega)]

/-- Witness for C8 at concrete bitstreams on both sides of the boundary. -/
theorem C8_capacity_check_witness :
    capacityCheck (List.replicate 240779 false) = .ok (List.replicate 240779 false) ∧
    capacityCheck (List.replicate 240780 true)
      = .error (.valueError "Data too large for A4") :=
  ⟨C8_capacity_check.1 _ (by rw [List.length_replicate]),
    C8_capacity_check.2.1 _ (by rw [List.length_replicate]; omega)⟩

/-- C9: `_best_compression` tries each registered compressor (zlib, lzma,
bz2), keeps the smallest compressed output — the comparison is strict, so on
ties the earlier compressor in registration order wins — prefixes the result
with the chosen compressor's 1-byte algorithm id (0/1/2), falls back to the
default plain zlib call if all three attempts raised, and is fully
deterministic: the embedding is a pure function, so equal inputs give equal
outputs and ids. -/
theorem C9_compression_selector :
    ∀ (zlibC lzmaC bz2C : List Nat → Option (List Nat)) (data data2 : List Nat),
    (data = data2 →
      _best_compression zlibC lzmaC bz2C data
        = _best_compression zlibC lzmaC bz2C data2) ∧
    (zlibC data = none → lzmaC data = none → bz2C data = none →
      _best_compression zlibC lzmaC bz2C data = zlibC data) ∧
    (∀ cz, zlibC data = some cz →
      (∀ cl, lzmaC data = some cl → cz.length ≤ cl.length) →
      (∀ cb, bz2C data = some cb → cz.length ≤ cb.length) →
      _best_compression zlibC lzmaC bz2C data = some (0 :: cz)) ∧
    (∀ cl, lzmaC data = some cl →
      (∀ cz, zlibC data = some cz → cl.length < cz.length) →
      (∀ cb, bz2C data = some cb → cl.length ≤ cb.length) →
      _best_compression zlibC lzmaC bz2C data = some (1 :: cl)) ∧
    (∀ cb, bz2C data = some cb →
      (∀ cz, zlibC data = some cz → cb.length < cz.length) →
      (∀ cl, lzmaC data = some cl → cb.length < cl.length) →
      _best_compression zlibC lzmaC bz2C data = some (2 :: cb)) := by
  intro zlibC lzmaC bz2C data data2
  refine ⟨fun h => by rw [h], ?_, ?_, ?_, ?_⟩
  · intro hz hl hb
    simp only [_best_compression, List.foldl_cons, List.foldl_nil, hz, hl, hb]
  · intro cz hz hl1 hb1
    rcases hl : lzmaC data with _ | cl
    · rcases hb : bz2C data with _ | cb
      · simp only [_best_compression, List.foldl_cons, List.foldl_nil, hz, hl, hb]
      · have hcb := hb1 cb hb
        simp only [_best_compression, List.foldl_cons, List.foldl_nil, hz, hl, hb]
        rw [if_neg (by omega)]
    · have hcl := hl1 cl hl
      rcases hb : bz2C data with _ | cb
      · simp only [_best_compression, List.foldl_cons, List.foldl_nil, hz, hl, hb]
        rw [if_neg (by omega)]
      · have hcb := hb1 cb hb
        simp only [_best_compression, List.foldl_cons, List.foldl_nil, hz, hl, hb]
        rw [if_neg (by omega)]
        dsimp only
        rw [if_neg (by omega)]
  · intro cl hl hz1 hb1
    rcases hz : zlibC data with _ | cz
    · rcases hb : bz2C data with _ | cb
      · simp only [_best_compression, List.foldl_cons, List.foldl_nil, hz, hl, hb]
      · have hcb := hb1 cb hb
        simp only [_best_compression, List.foldl_cons, List.foldl_nil, hz, hl, hb]
        rw [if_neg (by omega)]
    · have hcz := hz1 cz hz
      rcases hb : bz2C data with _ | cb
      · simp only [_best_compression, List.foldl_cons, List.foldl_nil, hz, hl, hb]
        rw [if_pos (by omega)]
      · have hcb := hb1 cb hb
        simp only [_best_compression, List.foldl_cons, List.foldl_nil, hz, hl, hb]
        rw [if_pos (by omega)]
        dsimp only
        rw [if_neg (by omega)]
  · intro cb hb hz1 hl1
    rcases hz : zlibC data with _ | cz
    · rcases hl : lzmaC data with _ | cl
      · simp only [_best_compression, List.foldl_cons, List.foldl_nil, hz, hl, hb]
      · have hcl := hl1 cl hl
        simp only [_best_compression, List.foldl_cons, List.foldl_nil, hz, hl, hb]
        rw [if_pos (by omega)]
    · have hcz := hz1 cz hz
      rcases hl : lzmaC data with _ | cl
      · simp only [_best_compression, List.foldl_cons, List.foldl_nil, hz, hl, hb]
        rw [if_pos (by omega)]
      · have hcl := hl1 cl hl
        by_cases hlz : cl.length < cz.length
        · simp only [_best_compression, List.foldl_cons, List.foldl_nil, hz, hl, hb]
          rw [if_pos hlz]
          dsimp only
          rw [if_pos (by omega)]
        · simp only [_best_compression, List.foldl_cons, List.foldl_nil, hz, hl, hb]
          rw [if_neg hlz]
          dsimp only
          rw [if_pos (by omega)]

/-- Witness for C9 with concrete compressors: lzma yields the smallest
output, and a fallback case where every compressor raises. -/
theorem C9_compression_selector_witness :
    _best_compression (fun _ => some [7, 7]) (fun _ => some [7]) (fun _ => none)
      [1] = some (1 :: [7]) ∧
    _best_compression (fun _ => none) (fun _ => none) (fun _ => none) [1] = none :=
  ⟨(C9_compression_selector (fun _ => some [7, 7]) (fun _ => some [7])
      (fun _ => none) [1] [1]).2.2.2.1 [7] rfl
      (fun cz hcz => by cases hcz; decide)
      (fun cb hcb => Option.noConfusion hcb),
    (C9_compression_selector (fun _ => none) (fun _ => none)
      (fun _ => none) [1] [1]).2.1 rfl rfl rfl⟩

/-- C10: starting from a fresh `UltraFastMemoryManager`, every pool is empty
and stays empty under any sequence of `get_object` / `return_object` calls —
`return_object`'s guard `if pool and len(pool) < self.max_pool_size` is falsy
for an empty deque, so nothing is ever inserted; consequently `get_object`
always takes the allocate-fresh branch and leaves the state unchanged: the
pooled implementation behaves identically to one with no pool at all. -/
theorem C10_pools_always_empty :
    ∀ st : UltraFastMemoryManager, Reachable st →
      allPoolsEmpty st ∧
      (∀ (obj_type : String) (size : Option Nat),
        get_object st obj_type size = (createFresh obj_type size, st)) ∧
      (∀ (obj_type : String) (obj : PoolObj), return_object st obj_type obj = st) :=
  fun st h =>
    ⟨reachable_allPoolsEmpty st h,
      fun ty sz => get_object_always_fresh st (reachable_allPoolsEmpty st h) ty sz,
      fun ty obj => return_object_noop st (reachable_allPoolsEmpty st h) ty obj⟩

/-- Witness for C10 at a concrete reachable state (after one return and one
get). -/
theorem C10_pools_always_empty_witness :
    allPoolsEmpty (return_object memoryManagerInit "bytearray" (.bytearrayObj [1, 2])) ∧
    get_object (return_object memoryManagerInit "bytearray" (.bytearrayObj [1, 2]))
        "numpy_array" (some 7)
      = (createFresh "numpy_array" (some 7),
        return_object memoryManagerInit "bytearray" (.bytearrayObj [1, 2])) :=
  ⟨(C10_pools_always_empty _ (Reachable.ret _ _ _ Reachable.init)).1,
    (C10_pools_always_empty _ (Reachable.ret _ _ _ Reachable.init)).2.1
      "numpy_array" (some 7)⟩

end BitPaper
